import Mathlib

/-!
# MyLang: tokenizer, parser and assembly generator

A shallow embedding of `src/tokenizer.hpp`, `src/parser.hpp` and
`src/asm_generator.hpp`, followed by theorems about them.

Conventions of the embedding:

* the character stream of the source file is a `List Char`; `isdigit` and
  `isalpha` (C locale) are `Char.isDigit` and `Char.isAlpha`;
* `std::string` is `String`, `std::vector` is `List`;
* the mutable members of `Parser` (`index`) and the diagnostics written to
  `std::cerr` are threaded explicitly through a `Parser` record;
* a call of `exit(EXIT_FAILURE)` is a separate outcome, distinct from
  returning `std::nullopt`;
* the output stream `asm_out` of `Generator` is a `String` passed through
  every emission routine.
-/

namespace MyLang

/-! ## Tokens (`tokenizer.hpp`) -/

/-- The enumeration `TokenType`, constructors in declaration order. -/
inductive TokenType where
  | return_
  | open_paren
  | close_paren
  | semicolon
  | INT
  | ident
  | int_
  | assign
  deriving DecidableEq, Repr

/-- The record `Token`. -/
structure Token where
  type : TokenType
  value : String
  deriving DecidableEq, Repr

/-- Classification of a finished letter run (`tokenizer.hpp`, lines 48-54). -/
def classify_word (buffer : String) : Token :=
  if buffer = "exit" then Token.mk TokenType.return_ buffer
  else if buffer = "int" then Token.mk TokenType.int_ buffer
  else Token.mk TokenType.ident buffer

/-- The outer `while (file.get(ch))` loop of `Tokenizer::tokenize`: the first
argument is what is left of the character stream, the second the vector
`tokens` built so far.  The inner loops read a maximal run of digits
(letters); the character that ends the run is put back by `unget`, so the
outer loop resumes right after the run. -/
def tokenize_loop : List Char → List Token → List Token
  | [], tokens => tokens
  | ch :: file, tokens =>
    if ch.isDigit then
      tokenize_loop (file.dropWhile Char.isDigit)
        (tokens ++ [Token.mk TokenType.INT (String.mk (ch :: file.takeWhile Char.isDigit))])
    else if ch.isAlpha then
      tokenize_loop (file.dropWhile Char.isAlpha)
        (tokens ++ [classify_word (String.mk (ch :: file.takeWhile Char.isAlpha))])
    else if ch = '(' then tokenize_loop file (tokens ++ [Token.mk TokenType.open_paren "("])
    else if ch = ')' then tokenize_loop file (tokens ++ [Token.mk TokenType.close_paren ")"])
    else if ch = ';' then tokenize_loop file (tokens ++ [Token.mk TokenType.semicolon ";"])
    else if ch = '=' then tokenize_loop file (tokens ++ [Token.mk TokenType.assign "="])
    else tokenize_loop file tokens
termination_by file _ => file.length
decreasing_by
  all_goals simp_wf
  all_goals first
    | omega
    | exact Nat.lt_succ_of_le (List.dropWhile_sublist _).length_le

/-- The function `Tokenizer::tokenize` on the content of the source file. -/
def tokenize (file : List Char) : List Token :=
  tokenize_loop file []

/-! ## Syntax tree (`parser.hpp`, lines 11-49) -/

/-- The enumeration `StmtType`. -/
inductive StmtType where
  | Exit
  | Ident
  deriving DecidableEq, Repr

/-- The record `NodeIdent`: two tokens, of which the parser only sets the first. -/
structure NodeIdent where
  ident : Token
  Int : Token
  deriving DecidableEq, Repr

/-- The record `NodeIntLit`. -/
structure NodeIntLit where
  int_ : Token
  deriving DecidableEq, Repr

/-- The variant held by `NodeTerm::value`. -/
inductive TermValue where
  | node_ident (n : NodeIdent)
  | node_int_lit (n : NodeIntLit)
  deriving DecidableEq, Repr

/-- The record `NodeTerm`. -/
structure NodeTerm where
  value : TermValue
  deriving DecidableEq, Repr

/-- The record `NodeExpr`. -/
structure NodeExpr where
  value : NodeTerm
  deriving DecidableEq, Repr

/-- The record `NodeStmtExit`. -/
structure NodeStmtExit where
  expr : NodeExpr
  deriving DecidableEq, Repr

/-- The record `NodeStmtInt`. -/
structure NodeStmtInt where
  ident : NodeIdent
  value : NodeExpr
  deriving DecidableEq, Repr

/-- The variant held by `NodeStmt::stmt`; it has three alternatives. -/
inductive StmtValue where
  | node_ident (n : NodeIdent)
  | node_stmt_exit (n : NodeStmtExit)
  | node_stmt_int (n : NodeStmtInt)
  deriving DecidableEq, Repr

/-- The record `NodeStmt`: the variant and the separate tag `stmt_type`. -/
structure NodeStmt where
  stmt : StmtValue
  stmt_type : StmtType
  deriving DecidableEq, Repr

/-- The record `NodeProg`. -/
structure NodeProg where
  stmts : List NodeStmt
  deriving DecidableEq, Repr

/-- A value-initialised `Token`: the first enumerator and the empty string.
It fills the member `NodeIdent::Int`, which `NodeIdent{token}` leaves out. -/
def Token.zero : Token := Token.mk TokenType.return_ ""

/-! ## Parser (`parser.hpp`, lines 51-156) -/

/-- The state of a `Parser` object: the token vector, the cursor `index`, and
the lines written to `std::cerr` so far. -/
structure Parser where
  tokens : List Token
  index : Nat
  cerr : List String
  deriving DecidableEq, Repr

/-- The constructor `Parser(tokens)`: the cursor starts at 0. -/
def Parser.new (tokens : List Token) : Parser := Parser.mk tokens 0 []

/-- Writes one line to `std::cerr`. -/
def Parser.log (p : Parser) (msg : String) : Parser :=
  { p with cerr := p.cerr ++ [msg] }

/-- Moves the cursor: `index += n`. -/
def Parser.advance (p : Parser) (n : Nat) : Parser :=
  { p with index := p.index + n }

/-- What a parse function does: it returns a value (`present`), returns
`std::nullopt` (`nullopt`), or the process is ended by `exit(EXIT_FAILURE)`
(`exit_failure`).  Each alternative carries the parser state reached. -/
inductive Outcome (α : Type) where
  | present (a : α) (p : Parser)
  | nullopt (p : Parser)
  | exit_failure (p : Parser)
  deriving DecidableEq, Repr

/-- The function `Parser::get_token_type`: the type of the token at `index`, or,
out of range, the state in which the process exits. -/
def get_token_type (p : Parser) (index : Nat) : Except Parser TokenType :=
  if h : index < p.tokens.length then Except.ok (p.tokens.get ⟨index, h⟩).type
  else Except.error (p.log "get_token_type fail")

/-- The function `Parser::get_token`: the token under the cursor, or, out of
range, the state in which the process exits. -/
def get_token (p : Parser) : Except Parser Token :=
  if h : p.index < p.tokens.length then Except.ok (p.tokens.get ⟨p.index, h⟩)
  else Except.error (p.log "no more tokens")

/-- The function `Parser::parse_term`. -/
def parse_term (p : Parser) : Outcome NodeTerm :=
  match get_token_type p p.index with
  | Except.error q => Outcome.exit_failure q
  | Except.ok ty =>
    if ty = TokenType.INT then
      match get_token p with
      | Except.error q => Outcome.exit_failure q
      | Except.ok token =>
        Outcome.present (NodeTerm.mk (TermValue.node_int_lit (NodeIntLit.mk token))) (p.advance 1)
    else Outcome.nullopt (p.log "parse_term_fail")

/-- The function `Parser::parse_expr`. -/
def parse_expr (p : Parser) : Outcome NodeExpr :=
  match parse_term p with
  | Outcome.present node_term q => Outcome.present (NodeExpr.mk node_term) q
  | Outcome.nullopt q => Outcome.nullopt (q.log "parse_expr_fail")
  | Outcome.exit_failure q => Outcome.exit_failure q

/-- The guard at the head of both branches of `parse_stmt`,
`get_token_type(index) == a && index + 1 < tokens.size() &&
get_token_type(index + 1) == b`, evaluated left to right with short-circuit. -/
def lookahead (p : Parser) (a b : TokenType) : Except Parser Bool :=
  match get_token_type p p.index with
  | Except.error q => Except.error q
  | Except.ok t0 =>
    if t0 = a then
      if p.index + 1 < p.tokens.length then
        match get_token_type p (p.index + 1) with
        | Except.error q => Except.error q
        | Except.ok t1 => Except.ok (decide (t1 = b))
      else Except.ok false
    else Except.ok false

/-- The `exit` branch of `parse_stmt` (lines 81-87), entered after its guard
held: skip two tokens, parse the expression, skip two more tokens. -/
def parse_stmt_exit (p : Parser) : Outcome NodeStmt :=
  match parse_expr (p.advance 2) with
  | Outcome.exit_failure q => Outcome.exit_failure q
  | Outcome.nullopt q => Outcome.nullopt q
  | Outcome.present expr q =>
    Outcome.present
      (NodeStmt.mk (StmtValue.node_stmt_exit (NodeStmtExit.mk expr)) StmtType.Exit)
      (q.advance 2)

/-- The `int` branch of `parse_stmt` (lines 92-114), entered after its guard
held. -/
def parse_stmt_int (p : Parser) : Outcome NodeStmt :=
  match get_token (p.advance 1) with
  | Except.error q => Outcome.exit_failure q
  | Except.ok token =>
    let ident := NodeIdent.mk token Token.zero
    let p2 := (p.advance 1).advance 1
    match get_token_type p2 p2.index with
    | Except.error q => Outcome.exit_failure q
    | Except.ok t =>
      if t ≠ TokenType.assign then
        Outcome.nullopt (p2.log "expecting assignment sign '=' ")
      else
        match parse_expr (p2.advance 1) with
        | Outcome.exit_failure q => Outcome.exit_failure q
        | Outcome.nullopt q => Outcome.nullopt q
        | Outcome.present expr p4 =>
          match get_token_type p4 p4.index with
          | Except.error q => Outcome.exit_failure q
          | Except.ok t =>
            if t = TokenType.semicolon then
              Outcome.present
                (NodeStmt.mk (StmtValue.node_stmt_int (NodeStmtInt.mk ident expr)) StmtType.Ident)
                (p4.advance 1)
            else Outcome.nullopt (p4.log "expecting ';' ")

/-- The function `Parser::parse_stmt`. -/
def parse_stmt (p : Parser) : Outcome NodeStmt :=
  match lookahead p TokenType.return_ TokenType.open_paren with
  | Except.error q => Outcome.exit_failure q
  | Except.ok true => parse_stmt_exit p
  | Except.ok false =>
    match lookahead p TokenType.int_ TokenType.ident with
    | Except.error q => Outcome.exit_failure q
    | Except.ok true => parse_stmt_int p
    | Except.ok false => Outcome.nullopt (p.log "parse_stmt_fail")

/-- The `while (index < tokens.size())` loop of `parse_program`; `prog` is the
program built so far.  It terminates because a statement that is returned has
moved the cursor forward. -/
def parse_program_loop (p : Parser) (prog : NodeProg) : Outcome NodeProg :=
  if p.index < p.tokens.length then
    match hs : parse_stmt p with
    | Outcome.present stmt q => parse_program_loop q (NodeProg.mk (prog.stmts ++ [stmt]))
    | Outcome.nullopt q => Outcome.nullopt (q.log "parse_prog_fail")
    | Outcome.exit_failure q => Outcome.exit_failure q
  else Outcome.present prog p
termination_by p.tokens.length - p.index
decreasing_by
  simp_wf
  rename_i hlt
  have hterm : ∀ (a : Parser) (t : NodeTerm) (b : Parser),
      parse_term a = Outcome.present t b → b = a.advance 1 := by
    intro a t b h
    unfold parse_term at h
    split at h
    · simp at h
    · split at h
      · split at h
        · simp at h
        · simp at h; exact h.2.symm
      · simp at h
  have hexpr : ∀ (a : Parser) (e : NodeExpr) (b : Parser),
      parse_expr a = Outcome.present e b → b = a.advance 1 := by
    intro a e b h
    unfold parse_expr at h
    split at h
    · rename_i t c ht
      simp at h
      rw [← h.2]; exact hterm a t c ht
    · simp at h
    · simp at h
  have key : q.tokens = p.tokens ∧ q.index = p.index + 5 := by
    unfold parse_stmt at hs
    split at hs
    · simp at hs
    · unfold parse_stmt_exit at hs
      split at hs
      · simp at hs
      · simp at hs
      · rename_i e c he
        simp at hs
        rw [← hs.2, hexpr _ e c he]
        simp [Parser.advance]
    · split at hs
      · simp at hs
      · unfold parse_stmt_int at hs
        split at hs
        · simp at hs
        · simp only at hs
          split at hs
          · simp at hs
          · split at hs
            · simp at hs
            · split at hs
              · simp at hs
              · simp at hs
              · rename_i e c he
                split at hs
                · simp at hs
                · split at hs
                  · simp at hs
                    rw [← hs.2, hexpr _ e c he]
                    simp [Parser.advance]
                  · simp at hs
      · simp at hs
  rw [key.1, key.2]
  omega

/-- The function `Parser::parse_program`, run on a parser in state `p`. -/
def parse_program (p : Parser) : Outcome NodeProg :=
  parse_program_loop p (NodeProg.mk [])

/-! ## Generator (`asm_generator.hpp`) -/

/-- The function `Generator::generate_ident`; `asm_out` is the text written so far. -/
def generate_ident (asm_out : String) (node_ident : NodeIdent) : String :=
  asm_out ++ "    sta %" ++ node_ident.ident.value ++ "\n" ++ "    ldi A, 0\n"

/-- The function `Generator::generate_int_lit`. -/
def generate_int_lit (asm_out : String) (node_int_lit : NodeIntLit) : String :=
  asm_out ++ "    ldi A " ++ node_int_lit.int_.value ++ "\n"

/-- The function `Generator::generate_term`.  The variant has two alternatives,
so the final `else` of the source is never taken. -/
def generate_term (asm_out : String) (node_term : NodeTerm) : String :=
  match node_term.value with
  | TermValue.node_ident n => generate_ident asm_out n
  | TermValue.node_int_lit n => generate_int_lit asm_out n

/-- The function `Generator::generate_expr`. -/
def generate_expr (asm_out : String) (node_expr : NodeExpr) : String :=
  generate_term asm_out node_expr.value

/-- The function `Generator::generate_exit`. -/
def generate_exit (asm_out : String) (node_stmt_exit : NodeStmtExit) : String :=
  generate_expr asm_out node_stmt_exit.expr ++ "\n    lda %r\n    out 0\n" ++ "    hlt\n"

/-- The function `Generator::generate_stmt_int`. -/
def generate_stmt_int (asm_out : String) (node_stmt_int : NodeStmtInt) : String :=
  generate_ident (generate_expr asm_out node_stmt_int.value) node_stmt_int.ident

/-- What `Generator::generate` does: it returns after writing `asm_out`
(`finished`), or the process is ended by `exit(EXIT_FAILURE)` with `asm_out`
written up to then (`exit_failure`). -/
inductive GenOutcome where
  | finished (asm_out : String)
  | exit_failure (asm_out : String)
  deriving DecidableEq, Repr

/-- The `for` loop of `generate` over the statements still to be emitted. -/
def generate_loop : List NodeStmt → String → GenOutcome
  | [], asm_out => GenOutcome.finished asm_out
  | stmt :: rest, asm_out =>
    match stmt.stmt with
    | StmtValue.node_stmt_exit n => generate_loop rest (generate_exit asm_out n)
    | StmtValue.node_stmt_int n => generate_loop rest (generate_stmt_int asm_out n)
    | StmtValue.node_ident _ => GenOutcome.exit_failure asm_out

/-- The function `Generator::generate` for the program `m_prog`; the output
file starts empty. -/
def generate (m_prog : NodeProg) : GenOutcome :=
  match generate_loop m_prog.stmts ("" ++ ".text\n\nstart:\n") with
  | GenOutcome.exit_failure asm_out => GenOutcome.exit_failure asm_out
  | GenOutcome.finished asm_out => GenOutcome.finished (asm_out ++ "\n.data\n\n" ++ "r = 0" ++ "\n")

/-! ## Vocabulary of the specification -/

/-- The statement node the parser builds for `exit(<lit>);`: an exit statement
whose expression is the integer literal token `lit`. -/
def exit_node (lit : Token) : NodeStmt :=
  NodeStmt.mk
    (StmtValue.node_stmt_exit
      (NodeStmtExit.mk (NodeExpr.mk (NodeTerm.mk (TermValue.node_int_lit (NodeIntLit.mk lit))))))
    StmtType.Exit

/-- The statement node the parser builds for `int <name> = <lit>;`: a
declaration of the identifier token `name` with the integer literal token
`lit` as expression. -/
def int_node (name lit : Token) : NodeStmt :=
  NodeStmt.mk
    (StmtValue.node_stmt_int
      (NodeStmtInt.mk (NodeIdent.mk name Token.zero)
        (NodeExpr.mk (NodeTerm.mk (TermValue.node_int_lit (NodeIntLit.mk lit))))))
    StmtType.Ident

/-- Token types of the production `"exit" "(" Expression ")" ";"`. -/
def exit_form : List TokenType :=
  [TokenType.return_, TokenType.open_paren, TokenType.INT, TokenType.close_paren,
    TokenType.semicolon]

/-- Token types of the production `"int" Identifier "=" Expression ";"`. -/
def int_form : List TokenType :=
  [TokenType.int_, TokenType.ident, TokenType.assign, TokenType.INT, TokenType.semicolon]

/-- The statement a token sequence denotes under the grammar of the
specification: five tokens of one of the two forms, or nothing. -/
def grammar_stmt : List Token → Option NodeStmt
  | [t0, t1, t2, t3, t4] =>
    if [t0.type, t1.type, t2.type, t3.type, t4.type] = exit_form then some (exit_node t2)
    else if [t0.type, t1.type, t2.type, t3.type, t4.type] = int_form then some (int_node t1 t3)
    else none
  | _ => none

/-- Whether a token sequence is a concatenation of statements of the grammar. -/
def is_statements : List Token → Bool
  | [] => true
  | t0 :: t1 :: t2 :: t3 :: t4 :: rest =>
    (grammar_stmt [t0, t1, t2, t3, t4]).isSome && is_statements rest
  | _ => false

/-- The lines of a text: the pieces between line feeds. -/
def split_lines : List Char → List (List Char)
  | [] => [[]]
  | c :: cs =>
    if c = '\n' then [] :: split_lines cs
    else
      match split_lines cs with
      | [] => [[c]]
      | l :: ls => (c :: l) :: ls

/-- The instructions of an assembly text, in order: its lines without their
leading blanks, empty lines left out. -/
def instructions (text : String) : List String :=
  ((split_lines text.data).map (fun l => String.mk (l.dropWhile (fun c => c = ' ')))).filter
    (fun l => l ≠ "")

/-- Whether an instruction loads the accumulator: `ldi A ...` or `lda ...`. -/
def loads_accumulator (instr : String) : Bool :=
  "ldi A".data.isPrefixOf instr.data || "lda ".data.isPrefixOf instr.data

/-- The last instruction that loads the accumulator before the first `out`. -/
def load_before_out (instrs : List String) : Option String :=
  (instrs.takeWhile (fun i => !("out".data.isPrefixOf i.data))).reverse.find? loads_accumulator

/-- Number of positions of `text` at which `pat` occurs. -/
def count_occurrences (pat : List Char) : List Char → Nat
  | [] => if pat.isPrefixOf [] then 1 else 0
  | c :: cs => (if pat.isPrefixOf (c :: cs) then 1 else 0) + count_occurrences pat cs

/-- The lexemes of a token sequence, joined with single spaces. -/
def join_lexemes : List Token → List Char
  | [] => []
  | [t] => t.value.data
  | t :: u :: rest => t.value.data ++ ' ' :: join_lexemes (u :: rest)

/-- The character classes the lexer supports: digits, letters, the four
punctuation characters, and white space. -/
def supported_char (c : Char) : Bool :=
  c.isDigit || c.isAlpha || c = '(' || c = ')' || c = ';' || c = '=' || c.isWhitespace
    || c = Char.ofNat 11 || c = Char.ofNat 12

/-- A statement node built from tokens of `toks`: an exit node of an integer
literal token, or a declaration node of an identifier token and an integer
literal token. -/
def node_from (toks : List Token) (s : NodeStmt) : Prop :=
  (∃ lit, lit ∈ toks ∧ lit.type = TokenType.INT ∧ s = exit_node lit) ∨
  (∃ name lit, name ∈ toks ∧ lit ∈ toks ∧ name.type = TokenType.ident ∧
    lit.type = TokenType.INT ∧ s = int_node name lit)

/-- Whether the variant of a statement node holds one of the two alternatives
`generate` emits code for. -/
def emittable (s : NodeStmt) : Bool :=
  match s.stmt with
  | StmtValue.node_ident _ => false
  | _ => true

/-- The block of a statement: what `generate` writes for it, on its own. -/
def stmt_block (s : NodeStmt) : String :=
  match s.stmt with
  | StmtValue.node_stmt_exit n => generate_exit "" n
  | StmtValue.node_stmt_int n => generate_stmt_int "" n
  | StmtValue.node_ident _ => ""

/-- The blocks of a list of statements, concatenated in the order of the list. -/
def program_body : List NodeStmt → String
  | [] => ""
  | s :: rest => stmt_block s ++ program_body rest

/-- A character that can occur in a lexeme: a digit, a letter, or one of the
four punctuation characters. -/
def lexeme_char (c : Char) : Bool :=
  c.isDigit || c.isAlpha || c = '(' || c = ')' || c = ';' || c = '='

/-- Whether the lexeme of a token is one its kind allows: a non-empty string of
digits for an integer literal, `exit` and `int` for the keywords, a non-empty
string of letters other than the keywords for an identifier, and the
punctuation character itself for the four punctuation kinds. -/
def lexeme_agrees (t : Token) : Bool :=
  match t.type with
  | TokenType.INT => !t.value.data.isEmpty && t.value.data.all Char.isDigit
  | TokenType.return_ => t.value = "exit"
  | TokenType.int_ => t.value = "int"
  | TokenType.ident =>
    !t.value.data.isEmpty && t.value.data.all Char.isAlpha && t.value ≠ "exit" && t.value ≠ "int"
  | TokenType.open_paren => t.value = "("
  | TokenType.close_paren => t.value = ")"
  | TokenType.semicolon => t.value = ";"
  | TokenType.assign => t.value = "="

/-- Rounds of the loop of `parse_program`: `Rounds p k r` says that from state
`p` the loop runs `k` rounds in each of which the cursor is inside the
sequence and `parse_stmt` returns a statement, and reaches state `r`. -/
inductive Rounds : Parser → Nat → Parser → Prop where
  | zero (p : Parser) : Rounds p 0 p
  | succ (p q r : Parser) (stmt : NodeStmt) (k : Nat) :
    p.index < p.tokens.length → parse_stmt p = Outcome.present stmt q → Rounds q k r →
    Rounds p (k + 1) r

/-- The expressions of a statement node. -/
def stmt_exprs (s : NodeStmt) : List NodeExpr :=
  match s.stmt with
  | StmtValue.node_stmt_exit n => [n.expr]
  | StmtValue.node_stmt_int n => [n.value]
  | StmtValue.node_ident _ => []

/-! ## Entry point (`Main.cpp`) -/

/-- How a run of `main` ends: the source file cannot be opened and `main`
returns 1; `main` returns after `generate`, with what it printed to `std::cout`
and the text of the assembly file; the unchecked `.value()` of an absent
program throws, before a `Generator` exists; or the process is ended by
`exit(EXIT_FAILURE)` in the parser (no `Generator` exists yet) or in the
generator. -/
inductive MainOutcome where
  | open_failed
  | returned (cout : List Nat) (asm_out : String)
  | bad_optional_access
  | parser_exit (cerr : List String)
  | generator_exit (cout : List Nat) (asm_out : String)
  deriving DecidableEq, Repr

/-- The number `std::cout` prints for a statement tag. -/
def StmtType.number : StmtType → Nat
  | StmtType.Exit => 0
  | StmtType.Ident => 1

/-- The function `main` (`Main.cpp`); the argument is the content of the source
file, if it can be opened. -/
def main (file : Option (List Char)) : MainOutcome :=
  match file with
  | none => MainOutcome.open_failed
  | some content =>
    match parse_program (Parser.new (tokenize content)) with
    | Outcome.nullopt _ => MainOutcome.bad_optional_access
    | Outcome.exit_failure q => MainOutcome.parser_exit q.cerr
    | Outcome.present node_prog _ =>
      match generate node_prog with
      | GenOutcome.exit_failure asm_out =>
        MainOutcome.generator_exit
          (node_prog.stmts.length :: node_prog.stmts.map (fun node => node.stmt_type.number))
          asm_out
      | GenOutcome.finished asm_out =>
        MainOutcome.returned
          (node_prog.stmts.length :: node_prog.stmts.map (fun node => node.stmt_type.number)
            ++ [node_prog.stmts.length])
          asm_out

/-- The assembly text a run of `main` has written, if a `Generator` was
constructed at all. -/
def MainOutcome.assembly : MainOutcome → Option String
  | MainOutcome.returned _ asm_out => some asm_out
  | MainOutcome.generator_exit _ asm_out => some asm_out
  | _ => none

/-! ## Basic facts about the parser -/

/-- A term that `parse_term` returns is the integer literal under the cursor,
and the cursor has moved by one. -/
theorem parse_term_present (a b : Parser) (t : NodeTerm)
    (h : parse_term a = Outcome.present t b) :
    b = a.advance 1 ∧ ∃ tok, tok ∈ a.tokens ∧ tok.type = TokenType.INT ∧
      t = NodeTerm.mk (TermValue.node_int_lit (NodeIntLit.mk tok)) := by
  unfold parse_term at h
  split at h
  · simp at h
  · rename_i ty hty
    split at h
    · rename_i hINT
      split at h
      · simp at h
      · rename_i tok htok
        simp at h
        refine ⟨h.2.symm, tok, ?_, ?_, h.1.symm⟩
        · unfold get_token at htok
          split at htok
          · simp at htok
            rw [← htok]
            exact List.getElem_mem _
          · simp at htok
        · unfold get_token at htok
          unfold get_token_type at hty
          split at htok
          · rename_i hlt
            simp [hlt] at hty
            simp at htok
            rw [← htok, hty, hINT]
          · simp at htok
    · simp at h

/-- An expression that `parse_expr` returns wraps the integer literal under the
cursor, and the cursor has moved by one. -/
theorem parse_expr_present (a b : Parser) (e : NodeExpr)
    (h : parse_expr a = Outcome.present e b) :
    b = a.advance 1 ∧ ∃ tok, tok ∈ a.tokens ∧ tok.type = TokenType.INT ∧
      e = NodeExpr.mk (NodeTerm.mk (TermValue.node_int_lit (NodeIntLit.mk tok))) := by
  unfold parse_expr at h
  split at h
  · rename_i t c ht
    simp at h
    obtain ⟨hb, tok, hmem, hty, hterm⟩ := parse_term_present a c t ht
    refine ⟨by rw [← h.2]; exact hb, tok, hmem, hty, ?_⟩
    rw [← h.1, hterm]
  · simp at h
  · simp at h

/-- When the guard of a branch of `parse_stmt` holds, the token after the
cursor exists and has the second type. -/
theorem lookahead_true (p : Parser) (a b : TokenType)
    (h : lookahead p a b = Except.ok true) :
    ∃ tok, get_token (p.advance 1) = Except.ok tok ∧ tok ∈ p.tokens ∧ tok.type = b := by
  unfold lookahead at h
  split at h
  · simp at h
  · split at h
    · split at h
      · rename_i hlt
        unfold get_token_type at h
        simp [hlt] at h
        refine ⟨p.tokens.get ⟨p.index + 1, hlt⟩, ?_, List.getElem_mem _, h⟩
        simp [get_token, Parser.advance, hlt]
      · simp at h
    · simp at h

/-- A statement that `parse_stmt` returns is built from tokens of the
sequence; the cursor has moved by five, and tokens and diagnostics are as
before. -/
theorem parse_stmt_present (p q : Parser) (stmt : NodeStmt)
    (hs : parse_stmt p = Outcome.present stmt q) :
    q = p.advance 5 ∧ node_from p.tokens stmt := by
  unfold parse_stmt at hs
  split at hs
  · simp at hs
  · unfold parse_stmt_exit at hs
    split at hs
    · simp at hs
    · simp at hs
    · rename_i e c he
      simp at hs
      obtain ⟨hc, tok, hmem, hty, hexpr⟩ := parse_expr_present _ c e he
      refine ⟨?_, Or.inl ⟨tok, hmem, hty, ?_⟩⟩
      · rw [← hs.2, hc]; simp [Parser.advance]
      · rw [← hs.1, hexpr]; rfl
  · split at hs
    · simp at hs
    · rename_i hla
      obtain ⟨name, hname, hnmem, hnty⟩ := lookahead_true p _ _ hla
      unfold parse_stmt_int at hs
      rw [hname] at hs
      simp only at hs
      split at hs
      · simp at hs
      · split at hs
        · simp at hs
        · split at hs
          · simp at hs
          · simp at hs
          · rename_i e c he
            obtain ⟨hc, tok, hmem, hty, hexpr⟩ := parse_expr_present _ c e he
            split at hs
            · simp at hs
            · split at hs
              · simp at hs
                refine ⟨?_, Or.inr ⟨name, tok, hnmem, hmem, hnty, hty, ?_⟩⟩
                · rw [← hs.2, hc]; simp [Parser.advance]
                · rw [← hs.1, hexpr]; rfl
              · simp at hs
    · simp at hs

/-- The loop of `parse_program` stops as soon as the cursor is at or past the end. -/
theorem parse_program_loop_done (p : Parser) (prog : NodeProg)
    (h : ¬ p.index < p.tokens.length) :
    parse_program_loop p prog = Outcome.present prog p := by
  rw [parse_program_loop, if_neg h]

/-- One round of the loop of `parse_program` in which a statement is returned. -/
theorem parse_program_loop_present (p q : Parser) (prog : NodeProg) (stmt : NodeStmt)
    (h : p.index < p.tokens.length) (hs : parse_stmt p = Outcome.present stmt q) :
    parse_program_loop p prog = parse_program_loop q (NodeProg.mk (prog.stmts ++ [stmt])) := by
  rw [parse_program_loop, if_pos h]
  split
  · rename_i s r hr
    rw [hs] at hr
    simp at hr
    rw [hr.1, hr.2]
  · rename_i r hr
    rw [hs] at hr
    simp at hr
  · rename_i r hr
    rw [hs] at hr
    simp at hr

/-- The last round of the loop of `parse_program` when no statement is returned. -/
theorem parse_program_loop_nullopt (p q : Parser) (prog : NodeProg)
    (h : p.index < p.tokens.length) (hs : parse_stmt p = Outcome.nullopt q) :
    parse_program_loop p prog = Outcome.nullopt (q.log "parse_prog_fail") := by
  rw [parse_program_loop, if_pos h]
  split
  · rename_i s r hr
    rw [hs] at hr
    simp at hr
  · rename_i r hr
    rw [hs] at hr
    simp at hr
    rw [hr]
  · rename_i r hr
    rw [hs] at hr
    simp at hr

/-- The last round of the loop of `parse_program` when the process exits. -/
theorem parse_program_loop_exit_failure (p q : Parser) (prog : NodeProg)
    (h : p.index < p.tokens.length) (hs : parse_stmt p = Outcome.exit_failure q) :
    parse_program_loop p prog = Outcome.exit_failure q := by
  rw [parse_program_loop, if_pos h]
  split
  · rename_i s r hr
    rw [hs] at hr
    simp at hr
  · rename_i r hr
    rw [hs] at hr
    simp at hr
  · rename_i r hr
    rw [hs] at hr
    simp at hr
    rw [hr]

/-! ## Basic facts about the tokenizer -/

/-- A letter is not a digit. -/
theorem not_digit_of_alpha (ch : Char) (h : ch.isAlpha = true) : ch.isDigit = false := by
  simp only [Char.isAlpha, Char.isDigit, Char.isUpper, Char.isLower, Bool.or_eq_true,
    Bool.and_eq_true, decide_eq_true_eq, Bool.and_eq_false_imp, decide_eq_false_iff_not,
    ge_iff_le, UInt32.le_def, BitVec.le_def] at h ⊢
  have e1 : (UInt32.toBitVec 48).toNat = 48 := rfl
  have e2 : (UInt32.toBitVec 57).toNat = 57 := rfl
  have e3 : (UInt32.toBitVec 65).toNat = 65 := rfl
  have e4 : (UInt32.toBitVec 90).toNat = 90 := rfl
  have e5 : (UInt32.toBitVec 97).toNat = 97 := rfl
  have e6 : (UInt32.toBitVec 122).toNat = 122 := rfl
  omega

/-- The tokens built so far come first in the result of the loop (by induction
on a bound of the length of the source). -/
theorem tokenize_loop_append_aux (n : Nat) : ∀ (file : List Char), file.length ≤ n →
    ∀ tokens : List Token, tokenize_loop file tokens = tokens ++ tokenize_loop file [] := by
  induction n with
  | zero =>
    intro file hlen tokens
    have : file = [] := List.length_eq_zero.mp (Nat.le_zero.mp hlen)
    subst this
    simp [tokenize_loop]
  | succ n ih =>
    intro file hlen tokens
    cases file with
    | nil => simp [tokenize_loop]
    | cons ch file =>
      have hfile : file.length ≤ n := by simpa using hlen
      have hd : ∀ f : Char → Bool, (file.dropWhile f).length ≤ n :=
        fun f => Nat.le_trans (List.dropWhile_sublist f).length_le hfile
      rw [tokenize_loop]
      conv => rhs; rw [tokenize_loop]
      split
      · rw [ih _ (hd _) (tokens ++ _), ih _ (hd _) ([] ++ _)]; simp
      · split
        · rw [ih _ (hd _) (tokens ++ _), ih _ (hd _) ([] ++ _)]; simp
        · split
          · rw [ih _ hfile (tokens ++ _), ih _ hfile ([] ++ _)]; simp
          · split
            · rw [ih _ hfile (tokens ++ _), ih _ hfile ([] ++ _)]; simp
            · split
              · rw [ih _ hfile (tokens ++ _), ih _ hfile ([] ++ _)]; simp
              · split
                · rw [ih _ hfile (tokens ++ _), ih _ hfile ([] ++ _)]; simp
                · exact ih _ hfile tokens

/-- The tokens built so far come first in the result of the loop. -/
theorem tokenize_loop_append (file : List Char) (tokens : List Token) :
    tokenize_loop file tokens = tokens ++ tokenize_loop file [] :=
  tokenize_loop_append_aux file.length file (Nat.le_refl _) tokens

/-- The empty source has no tokens. -/
theorem tokenize_nil : tokenize [] = [] := by
  simp [tokenize, tokenize_loop]

/-- A digit starts an integer literal that takes the whole run of digits. -/
theorem tokenize_digit (ch : Char) (file : List Char) (h : ch.isDigit = true) :
    tokenize (ch :: file) =
      Token.mk TokenType.INT (String.mk (ch :: file.takeWhile Char.isDigit)) ::
        tokenize (file.dropWhile Char.isDigit) := by
  rw [tokenize, tokenize_loop, if_pos h, tokenize_loop_append]
  rfl

/-- A letter starts a word that takes the whole run of letters. -/
theorem tokenize_alpha (ch : Char) (file : List Char) (h : ch.isAlpha = true) :
    tokenize (ch :: file) =
      classify_word (String.mk (ch :: file.takeWhile Char.isAlpha)) ::
        tokenize (file.dropWhile Char.isAlpha) := by
  have hd : ¬ ch.isDigit = true := by simp [not_digit_of_alpha ch h]
  rw [tokenize, tokenize_loop, if_neg hd, if_pos h, tokenize_loop_append]
  rfl

/-- An opening parenthesis is one token. -/
theorem tokenize_open_paren (file : List Char) :
    tokenize ('(' :: file) = Token.mk TokenType.open_paren "(" :: tokenize file := by
  rw [tokenize, tokenize_loop, if_neg (by decide), if_neg (by decide), if_pos rfl,
    tokenize_loop_append]
  rfl

/-- A closing parenthesis is one token. -/
theorem tokenize_close_paren (file : List Char) :
    tokenize (')' :: file) = Token.mk TokenType.close_paren ")" :: tokenize file := by
  rw [tokenize, tokenize_loop, if_neg (by decide), if_neg (by decide), if_neg (by decide),
    if_pos rfl, tokenize_loop_append]
  rfl

/-- A semicolon is one token. -/
theorem tokenize_semicolon (file : List Char) :
    tokenize (';' :: file) = Token.mk TokenType.semicolon ";" :: tokenize file := by
  rw [tokenize, tokenize_loop, if_neg (by decide), if_neg (by decide), if_neg (by decide),
    if_neg (by decide), if_pos rfl, tokenize_loop_append]
  rfl

/-- An equals sign is one token. -/
theorem tokenize_assign (file : List Char) :
    tokenize ('=' :: file) = Token.mk TokenType.assign "=" :: tokenize file := by
  rw [tokenize, tokenize_loop, if_neg (by decide), if_neg (by decide), if_neg (by decide),
    if_neg (by decide), if_neg (by decide), if_pos rfl, tokenize_loop_append]
  rfl

/-- Any other character is skipped. -/
theorem tokenize_skip (ch : Char) (file : List Char) (hd : ch.isDigit = false)
    (ha : ch.isAlpha = false) (h1 : ch ≠ '(') (h2 : ch ≠ ')') (h3 : ch ≠ ';') (h4 : ch ≠ '=') :
    tokenize (ch :: file) = tokenize file := by
  rw [tokenize, tokenize_loop, if_neg (by simp [hd]), if_neg (by simp [ha]), if_neg h1,
    if_neg h2, if_neg h3, if_neg h4]
  rfl

/-! ## The parser on statements of the grammar -/

/-- In range, `get_token_type` returns the type of the token at the index. -/
theorem get_token_type_eq (p : Parser) (i : Nat) (tok : Token)
    (h : p.tokens[i]? = some tok) : get_token_type p i = Except.ok tok.type := by
  obtain ⟨hlt, heq⟩ := List.getElem?_eq_some_iff.mp h
  simp [get_token_type, hlt, heq]

/-- In range, `get_token` returns the token under the cursor. -/
theorem get_token_eq (p : Parser) (tok : Token)
    (h : p.tokens[p.index]? = some tok) : get_token p = Except.ok tok := by
  obtain ⟨hlt, heq⟩ := List.getElem?_eq_some_iff.mp h
  simp [get_token, hlt, heq]

/-- On an integer literal `parse_expr` returns it and moves the cursor by one. -/
theorem parse_expr_int (p : Parser) (tok : Token)
    (h : p.tokens[p.index]? = some tok) (hty : tok.type = TokenType.INT) :
    parse_expr p = Outcome.present
      (NodeExpr.mk (NodeTerm.mk (TermValue.node_int_lit (NodeIntLit.mk tok)))) (p.advance 1) := by
  simp [parse_expr, parse_term, get_token_type_eq p _ tok h, get_token_eq p tok h, hty]

/-- What `parse_stmt` does on `exit ( <literal>`: it returns an exit statement and
moves the cursor by five, whatever follows the literal. -/
theorem parse_stmt_exit_form (p : Parser) (t0 t1 t2 : Token)
    (h0 : p.tokens[p.index]? = some t0) (h1 : p.tokens[p.index + 1]? = some t1)
    (h2 : p.tokens[p.index + 2]? = some t2)
    (ty0 : t0.type = TokenType.return_) (ty1 : t1.type = TokenType.open_paren)
    (ty2 : t2.type = TokenType.INT) :
    parse_stmt p = Outcome.present (exit_node t2) (p.advance 5) := by
  have hlt : p.index + 1 < p.tokens.length := (List.getElem?_eq_some_iff.mp h1).1
  have hla : lookahead p TokenType.return_ TokenType.open_paren = Except.ok true := by
    simp [lookahead, get_token_type_eq p _ t0 h0, get_token_type_eq p _ t1 h1, ty0, ty1, hlt]
  have he := parse_expr_int (p.advance 2) t2 h2 ty2
  unfold parse_stmt
  rw [hla]
  simp only
  unfold parse_stmt_exit
  rw [he]
  simp [exit_node, Parser.advance]

/-- What `parse_stmt` does on `int <name> = <literal> ;`. -/
theorem parse_stmt_int_form (p : Parser) (t0 t1 t2 t3 t4 : Token)
    (h0 : p.tokens[p.index]? = some t0) (h1 : p.tokens[p.index + 1]? = some t1)
    (h2 : p.tokens[p.index + 2]? = some t2) (h3 : p.tokens[p.index + 3]? = some t3)
    (h4 : p.tokens[p.index + 4]? = some t4)
    (ty0 : t0.type = TokenType.int_) (ty1 : t1.type = TokenType.ident)
    (ty2 : t2.type = TokenType.assign) (ty3 : t3.type = TokenType.INT)
    (ty4 : t4.type = TokenType.semicolon) :
    parse_stmt p = Outcome.present (int_node t1 t3) (p.advance 5) := by
  have hlt : p.index + 1 < p.tokens.length := (List.getElem?_eq_some_iff.mp h1).1
  have hla1 : lookahead p TokenType.return_ TokenType.open_paren = Except.ok false := by
    simp [lookahead, get_token_type_eq p _ t0 h0, ty0]
  have hla2 : lookahead p TokenType.int_ TokenType.ident = Except.ok true := by
    simp [lookahead, get_token_type_eq p _ t0 h0, get_token_type_eq p _ t1 h1, ty0, ty1, hlt]
  have hg1 : get_token (p.advance 1) = Except.ok t1 := get_token_eq _ t1 h1
  have hg2 : get_token_type ((p.advance 1).advance 1) ((p.advance 1).advance 1).index
      = Except.ok t2.type := get_token_type_eq _ _ t2 h2
  have he := parse_expr_int (((p.advance 1).advance 1).advance 1) t3 h3 ty3
  have hg4 : get_token_type ((((p.advance 1).advance 1).advance 1).advance 1)
      ((((p.advance 1).advance 1).advance 1).advance 1).index = Except.ok t4.type :=
    get_token_type_eq _ _ t4 h4
  unfold parse_stmt
  rw [hla1]
  simp only
  rw [hla2]
  simp only
  unfold parse_stmt_int
  rw [hg1]
  simp only
  rw [hg2]
  simp only [ty2, ne_eq, not_true_eq_false, if_false]
  rw [he]
  simp only
  rw [hg4]
  simp [ty4, int_node, Parser.advance]


/-- The token sequences that denote a statement under the grammar. -/
theorem grammar_stmt_some (s : List Token) (n : NodeStmt) (h : grammar_stmt s = some n) :
    ∃ t0 t1 t2 t3 t4, s = [t0, t1, t2, t3, t4] ∧
      ((t0.type = TokenType.return_ ∧ t1.type = TokenType.open_paren ∧ t2.type = TokenType.INT ∧
          t3.type = TokenType.close_paren ∧ t4.type = TokenType.semicolon ∧ n = exit_node t2) ∨
       (t0.type = TokenType.int_ ∧ t1.type = TokenType.ident ∧ t2.type = TokenType.assign ∧
          t3.type = TokenType.INT ∧ t4.type = TokenType.semicolon ∧ n = int_node t1 t3)) := by
  unfold grammar_stmt at h
  split at h
  · rename_i t0 t1 t2 t3 t4
    refine ⟨t0, t1, t2, t3, t4, rfl, ?_⟩
    split at h
    · rename_i hf
      simp [exit_form] at hf
      simp at h
      exact Or.inl ⟨hf.1, hf.2.1, hf.2.2.1, hf.2.2.2.1, hf.2.2.2.2, h.symm⟩
    · split at h
      · rename_i hf
        simp [int_form] at hf
        simp at h
        exact Or.inr ⟨hf.1, hf.2.1, hf.2.2.1, hf.2.2.2.1, hf.2.2.2.2, h.symm⟩
      · simp at h
  · simp at h

/-- Lookup behind a prefix. -/
theorem getElem?_append_offset (pre l : List Token) (k : Nat) :
    (pre ++ l)[pre.length + k]? = l[k]? := by
  rw [List.getElem?_append_right (Nat.le_add_right _ _), Nat.add_sub_cancel_left]

/-- On a statement of the grammar `parse_stmt` returns the node it denotes. -/
theorem parse_stmt_grammar (pre s post : List Token) (cerr : List String) (n : NodeStmt)
    (h : grammar_stmt s = some n) :
    parse_stmt (Parser.mk (pre ++ (s ++ post)) pre.length cerr) =
      Outcome.present n (Parser.mk (pre ++ (s ++ post)) (pre.length + 5) cerr) := by
  obtain ⟨t0, t1, t2, t3, t4, hs, hform⟩ := grammar_stmt_some s n h
  subst hs
  have h0 : (pre ++ ([t0, t1, t2, t3, t4] ++ post))[pre.length]? = some t0 := by
    have := getElem?_append_offset pre ([t0, t1, t2, t3, t4] ++ post) 0
    simpa using this
  have h1 : (pre ++ ([t0, t1, t2, t3, t4] ++ post))[pre.length + 1]? = some t1 := by
    rw [getElem?_append_offset]; simp
  have h2 : (pre ++ ([t0, t1, t2, t3, t4] ++ post))[pre.length + 2]? = some t2 := by
    rw [getElem?_append_offset]; simp
  have h3 : (pre ++ ([t0, t1, t2, t3, t4] ++ post))[pre.length + 3]? = some t3 := by
    rw [getElem?_append_offset]; simp
  have h4 : (pre ++ ([t0, t1, t2, t3, t4] ++ post))[pre.length + 4]? = some t4 := by
    rw [getElem?_append_offset]; simp
  rcases hform with ⟨y0, y1, y2, _, _, hn⟩ | ⟨y0, y1, y2, y3, y4, hn⟩
  · rw [hn]
    exact parse_stmt_exit_form _ t0 t1 t2 h0 h1 h2 y0 y1 y2
  · rw [hn]
    exact parse_stmt_int_form _ t0 t1 t2 t3 t4 h0 h1 h2 h3 h4 y0 y1 y2 y3 y4

/-- On a concatenation of statements of the grammar, the loop of `parse_program`
appends their nodes in order and stops at the end of the sequence. -/
theorem parse_program_loop_grammar (ss : List (List Token)) (nodes : List NodeStmt)
    (h : List.Forall₂ (fun s n => grammar_stmt s = some n) ss nodes) :
    ∀ (pre : List Token) (cerr : List String) (prog : NodeProg),
      parse_program_loop (Parser.mk (pre ++ ss.flatten) pre.length cerr) prog =
        Outcome.present (NodeProg.mk (prog.stmts ++ nodes))
          (Parser.mk (pre ++ ss.flatten) (pre ++ ss.flatten).length cerr) := by
  induction h with
  | nil =>
    intro pre cerr prog
    rw [parse_program_loop_done _ _ (by simp)]
    simp
  | @cons s n ss nodes hsn _ ih =>
    intro pre cerr prog
    obtain ⟨t0, t1, t2, t3, t4, hs, _⟩ := grammar_stmt_some s n hsn
    have hlen : s.length = 5 := by rw [hs]; rfl
    have hstep := parse_stmt_grammar pre s ss.flatten cerr n hsn
    rw [List.flatten_cons]
    rw [parse_program_loop_present _ _ prog n (by simp [hlen]) hstep]
    have := ih (pre ++ s) cerr (NodeProg.mk (prog.stmts ++ [n]))
    simp only [List.length_append, hlen, List.append_assoc] at this
    rw [this]
    simp [hlen]

/-! ## Blocks, runs, instructions and occurrences -/

/-- What `generate_exit` writes does not depend on the text written before. -/
theorem generate_exit_append (asm_out : String) (n : NodeStmtExit) :
    generate_exit asm_out n = asm_out ++ generate_exit "" n := by
  cases h : n.expr.value.value <;>
    simp [generate_exit, generate_expr, generate_term, generate_ident, generate_int_lit, h,
      String.append_assoc]

/-- What `generate_stmt_int` writes does not depend on the text written before. -/
theorem generate_stmt_int_append (asm_out : String) (n : NodeStmtInt) :
    generate_stmt_int asm_out n = asm_out ++ generate_stmt_int "" n := by
  cases h : n.value.value.value <;>
    simp [generate_stmt_int, generate_expr, generate_term, generate_ident, generate_int_lit, h,
      String.append_assoc]

/-- When every statement holds an exit or a declaration node, the loop of
`generate` finishes and has appended the blocks of the statements in order. -/
theorem generate_loop_emittable (stmts : List NodeStmt) (h : ∀ s ∈ stmts, emittable s = true) :
    ∀ asm_out : String,
      generate_loop stmts asm_out = GenOutcome.finished (asm_out ++ program_body stmts) := by
  induction stmts with
  | nil => intro asm_out; simp [generate_loop, program_body]
  | cons s rest ih =>
    intro asm_out
    have hrest : ∀ t ∈ rest, emittable t = true := fun t ht => h t (List.mem_cons_of_mem _ ht)
    have hs : emittable s = true := h s (List.mem_cons_self _ _)
    unfold generate_loop
    cases hv : s.stmt with
    | node_ident n => simp [emittable, hv] at hs
    | node_stmt_exit n =>
      simp only
      rw [ih hrest, generate_exit_append]
      simp [program_body, stmt_block, hv, String.append_assoc]
    | node_stmt_int n =>
      simp only
      rw [ih hrest, generate_stmt_int_append]
      simp [program_body, stmt_block, hv, String.append_assoc]

/-- The body of a concatenation is the concatenation of the bodies. -/
theorem program_body_append (l1 l2 : List NodeStmt) :
    program_body (l1 ++ l2) = program_body l1 ++ program_body l2 := by
  induction l1 with
  | nil => simp [program_body]
  | cons s rest ih => simp [program_body, ih, String.append_assoc]

/-- A run of characters of one class, followed by nothing or by a character
outside the class, is what `takeWhile` takes and `dropWhile` drops. -/
theorem takeWhile_run (f : Char → Bool) (run rest : List Char) (h : ∀ c ∈ run, f c = true)
    (hrest : ∀ c ∈ rest.head?, f c = false) :
    (run ++ rest).takeWhile f = run ∧ (run ++ rest).dropWhile f = rest := by
  rw [List.takeWhile_append_of_pos h, List.dropWhile_append_of_pos h]
  cases rest with
  | nil => simp
  | cons c cs =>
    have hc : f c = false := hrest c (by simp)
    simp [List.takeWhile_cons, List.dropWhile_cons, hc]

/-- A maximal run of digits is one integer literal token. -/
theorem tokenize_digit_run (run rest : List Char) (hne : run ≠ [])
    (h : ∀ c ∈ run, c.isDigit = true) (hrest : ∀ c ∈ rest.head?, c.isDigit = false) :
    tokenize (run ++ rest) = Token.mk TokenType.INT (String.mk run) :: tokenize rest := by
  cases run with
  | nil => exact absurd rfl hne
  | cons c cs =>
    have hc : c.isDigit = true := h c (List.mem_cons_self _ _)
    have hcs : ∀ d ∈ cs, d.isDigit = true := fun d hd => h d (List.mem_cons_of_mem _ hd)
    obtain ⟨ht, hd⟩ := takeWhile_run Char.isDigit cs rest hcs hrest
    rw [List.cons_append, tokenize_digit c _ hc, ht, hd]

/-- A maximal run of letters is one word token. -/
theorem tokenize_alpha_run (run rest : List Char) (hne : run ≠ [])
    (h : ∀ c ∈ run, c.isAlpha = true) (hrest : ∀ c ∈ rest.head?, c.isAlpha = false) :
    tokenize (run ++ rest) = classify_word (String.mk run) :: tokenize rest := by
  cases run with
  | nil => exact absurd rfl hne
  | cons c cs =>
    have hc : c.isAlpha = true := h c (List.mem_cons_self _ _)
    have hcs : ∀ d ∈ cs, d.isAlpha = true := fun d hd => h d (List.mem_cons_of_mem _ hd)
    obtain ⟨ht, hd⟩ := takeWhile_run Char.isAlpha cs rest hcs hrest
    rw [List.cons_append, tokenize_alpha c _ hc, ht, hd]

/-- A blank is skipped. -/
theorem tokenize_blank (file : List Char) : tokenize (' ' :: file) = tokenize file :=
  tokenize_skip ' ' file (by decide) (by decide) (by decide) (by decide) (by decide) (by decide)

/-- The tokens of `int <name> = <v>;`. -/
theorem tokenize_declaration (name v : String)
    (hname : name.data ≠ [] ∧ ∀ c ∈ name.data, c.isAlpha = true)
    (hkw : name ≠ "exit" ∧ name ≠ "int")
    (hv : v.data ≠ [] ∧ ∀ c ∈ v.data, c.isDigit = true) :
    tokenize ("int " ++ name ++ " = " ++ v ++ ";").data =
      [Token.mk TokenType.int_ "int", Token.mk TokenType.ident name,
        Token.mk TokenType.assign "=", Token.mk TokenType.INT v,
        Token.mk TokenType.semicolon ";"] := by
  have e : ("int " ++ name ++ " = " ++ v ++ ";").data =
      ['i', 'n', 't'] ++ (' ' :: (name.data ++ (' ' :: '=' :: ' ' :: (v.data ++ [';'])))) := by
    simp [String.data_append]
  rw [e, tokenize_alpha_run _ _ (by simp) (by decide) (by simp), tokenize_blank,
    tokenize_alpha_run _ _ hname.1 hname.2 (by simp), tokenize_blank, tokenize_assign,
    tokenize_blank, tokenize_digit_run _ _ hv.1 hv.2 (by simp), tokenize_semicolon,
    tokenize_nil]
  have hw : classify_word (String.mk name.data) = Token.mk TokenType.ident name := by
    simp [classify_word, hkw.1, hkw.2]
  rw [hw]
  rfl

/-- The first line of a text ends at its first line feed. -/
theorem split_lines_append (l rest : List Char) (h : ∀ c ∈ l, c ≠ '\n') :
    split_lines (l ++ '\n' :: rest) = l :: split_lines rest := by
  induction l with
  | nil => simp [split_lines]
  | cons c l ih =>
    have hc : c ≠ '\n' := h c (List.mem_cons_self _ _)
    have hl : ∀ d ∈ l, d ≠ '\n' := fun d hd => h d (List.mem_cons_of_mem _ hd)
    rw [List.cons_append, split_lines, if_neg hc, ih hl]

/-- A first line that is not blank is the first instruction. -/
theorem instructions_line (l : List Char) (rest : String) (h : ∀ c ∈ l, c ≠ '\n')
    (hne : l.dropWhile (fun c => c = ' ') ≠ []) :
    instructions (String.mk (l ++ '\n' :: rest.data)) =
      String.mk (l.dropWhile (fun c => c = ' ')) :: instructions rest := by
  unfold instructions
  simp only [split_lines_append l rest.data h, List.map_cons]
  rw [List.filter_cons_of_pos]
  simp only [ne_eq, decide_eq_true_eq]
  intro hempty
  apply hne
  have := congrArg String.data hempty
  simpa using this

/-- The empty text has no instructions. -/
theorem instructions_empty : instructions "" = [] := by decide

/-- A digit is not a line feed. -/
theorem not_newline_of_digit (c : Char) (h : c.isDigit = true) : c ≠ '\n' := by
  intro hc; subst hc; exact absurd h (by decide)

/-- A letter is not a line feed. -/
theorem not_newline_of_alpha (c : Char) (h : c.isAlpha = true) : c ≠ '\n' := by
  intro hc; subst hc; exact absurd h (by decide)

/-- The instructions of a declaration block. -/
theorem instructions_declaration (name v : String)
    (hname : ∀ c ∈ name.data, c.isAlpha = true) (hv : ∀ c ∈ v.data, c.isDigit = true) :
    instructions ("    ldi A " ++ v ++ "\n    sta %" ++ name ++ "\n    ldi A, 0\n") =
      ["ldi A " ++ v, "sta %" ++ name, "ldi A, 0"] := by
  have e : ("    ldi A " ++ v ++ "\n    sta %" ++ name ++ "\n    ldi A, 0\n") =
      String.mk (("    ldi A ".data ++ v.data) ++ '\n' ::
        (String.mk (("    sta %".data ++ name.data) ++ '\n' ::
          (String.mk ("    ldi A, 0".data ++ '\n' :: "".data)).data)).data) := by
    apply String.ext
    simp [String.data_append]
  rw [e, instructions_line, instructions_line, instructions_line, instructions_empty]
  · apply List.cons_eq_cons.mpr
    refine ⟨?_, ?_⟩
    · apply String.ext; simp [String.data_append]
    · apply List.cons_eq_cons.mpr
      refine ⟨?_, ?_⟩
      · apply String.ext; simp [String.data_append]
      · rfl
  · decide
  · decide
  · intro c hc
    rcases List.mem_append.mp hc with h | h
    · exact (by decide : ∀ c ∈ "    sta %".data, c ≠ '\n') c h
    · exact not_newline_of_alpha c (hname c h)
  · simp
  · intro c hc
    rcases List.mem_append.mp hc with h | h
    · exact (by decide : ∀ c ∈ "    ldi A ".data, c ≠ '\n') c h
    · exact not_newline_of_digit c (hv c h)
  · simp

/-- The instructions of an exit block. -/
theorem instructions_exit (v : String) (hv : ∀ c ∈ v.data, c.isDigit = true) :
    instructions ("    ldi A " ++ v ++ "\n\n    lda %r\n    out 0\n    hlt\n") =
      ["ldi A " ++ v, "lda %r", "out 0", "hlt"] := by
  have e : ("    ldi A " ++ v ++ "\n\n    lda %r\n    out 0\n    hlt\n") =
      String.mk (("    ldi A ".data ++ v.data) ++ '\n' ::
        ("\n    lda %r\n    out 0\n    hlt\n" : String).data) := by
    apply String.ext
    simp [String.data_append]
  have tail : instructions "\n    lda %r\n    out 0\n    hlt\n" = ["lda %r", "out 0", "hlt"] := by
    decide
  rw [e, instructions_line, tail]
  · apply List.cons_eq_cons.mpr
    refine ⟨?_, rfl⟩
    apply String.ext; simp [String.data_append]
  · intro c hc
    rcases List.mem_append.mp hc with h | h
    · exact (by decide : ∀ c ∈ "    ldi A ".data, c ≠ '\n') c h
    · exact not_newline_of_digit c (hv c h)
  · simp

/-- The tokens of `exit(<v>);`. -/
theorem tokenize_exit (v : String) (hv : v.data ≠ [] ∧ ∀ c ∈ v.data, c.isDigit = true) :
    tokenize ("exit(" ++ v ++ ");").data =
      [Token.mk TokenType.return_ "exit", Token.mk TokenType.open_paren "(",
        Token.mk TokenType.INT v, Token.mk TokenType.close_paren ")",
        Token.mk TokenType.semicolon ";"] := by
  have e : ("exit(" ++ v ++ ");").data =
      ['e', 'x', 'i', 't'] ++ ('(' :: (v.data ++ (')' :: [';']))) := by
    simp [String.data_append]
  rw [e, tokenize_alpha_run _ _ (by simp) (by decide) (by simp), tokenize_open_paren,
    tokenize_digit_run _ _ hv.1 hv.2 (by simp), tokenize_close_paren, tokenize_semicolon,
    tokenize_nil]
  rfl

/-- A single statement of the grammar parses to the program of its node. -/
theorem parse_program_single (s : List Token) (n : NodeStmt) (h : grammar_stmt s = some n) :
    parse_program (Parser.new s) = Outcome.present (NodeProg.mk [n]) (Parser.mk s 5 []) := by
  have hlen : s.length = 5 := by
    obtain ⟨t0, t1, t2, t3, t4, hs, _⟩ := grammar_stmt_some s n h
    rw [hs]; rfl
  have := parse_program_loop_grammar [s] [n] (List.Forall₂.cons h List.Forall₂.nil) [] []
    (NodeProg.mk [])
  simpa [parse_program, Parser.new, hlen] using this

/-- The lexeme of a word token is the word. -/
theorem classify_word_value (buffer : String) : (classify_word buffer).value = buffer := by
  unfold classify_word
  split
  · rfl
  · split <;> rfl

/-- Lexemes consist of digits, letters and the four punctuation characters
(by induction on a bound of the length of the source). -/
theorem tokenize_lexeme_chars_aux (n : Nat) : ∀ file : List Char, file.length ≤ n →
    ∀ t ∈ tokenize file, ∀ c ∈ t.value.data, lexeme_char c = true := by
  induction n with
  | zero =>
    intro file hlen t ht
    have : file = [] := List.length_eq_zero.mp (Nat.le_zero.mp hlen)
    subst this
    simp [tokenize_nil] at ht
  | succ n ih =>
    intro file hlen t ht
    cases file with
    | nil => simp [tokenize_nil] at ht
    | cons ch file =>
      have hfile : file.length ≤ n := by simpa using hlen
      have hd : ∀ f : Char → Bool, (file.dropWhile f).length ≤ n :=
        fun f => Nat.le_trans (List.dropWhile_sublist f).length_le hfile
      by_cases h1 : ch.isDigit = true
      · rw [tokenize_digit ch file h1] at ht
        rcases List.mem_cons.mp ht with rfl | ht
        · intro c hc
          simp only [List.mem_cons] at hc
          rcases hc with rfl | hc
          · simp [lexeme_char, h1]
          · have := (List.mem_takeWhile_imp hc)
            simp [lexeme_char, this]
        · exact ih _ (hd _) t ht
      · by_cases h2 : ch.isAlpha = true
        · rw [tokenize_alpha ch file h2] at ht
          rcases List.mem_cons.mp ht with rfl | ht
          · intro c hc
            rw [classify_word_value] at hc
            simp only [List.mem_cons] at hc
            rcases hc with rfl | hc
            · simp [lexeme_char, h2]
            · have := (List.mem_takeWhile_imp hc)
              simp [lexeme_char, this]
          · exact ih _ (hd _) t ht
        · by_cases h3 : ch = '('
          · subst h3
            rw [tokenize_open_paren] at ht
            rcases List.mem_cons.mp ht with rfl | ht
            · decide
            · exact ih _ hfile t ht
          · by_cases h4 : ch = ')'
            · subst h4
              rw [tokenize_close_paren] at ht
              rcases List.mem_cons.mp ht with rfl | ht
              · decide
              · exact ih _ hfile t ht
            · by_cases h5 : ch = ';'
              · subst h5
                rw [tokenize_semicolon] at ht
                rcases List.mem_cons.mp ht with rfl | ht
                · decide
                · exact ih _ hfile t ht
              · by_cases h6 : ch = '='
                · subst h6
                  rw [tokenize_assign] at ht
                  rcases List.mem_cons.mp ht with rfl | ht
                  · decide
                  · exact ih _ hfile t ht
                · rw [tokenize_skip ch file (by simpa using h1) (by simpa using h2) h3 h4 h5 h6]
                    at ht
                  exact ih _ hfile t ht

/-- Lexemes consist of digits, letters and the four punctuation characters. -/
theorem tokenize_lexeme_chars (file : List Char) :
    ∀ t ∈ tokenize file, ∀ c ∈ t.value.data, lexeme_char c = true :=
  tokenize_lexeme_chars_aux file.length file (Nat.le_refl _)

/-- Every statement of a program returned by the loop of `parse_program` was
already there or is built from tokens of the sequence (by induction on a bound
of the number of tokens left). -/
theorem parse_program_loop_nodes_aux (n : Nat) : ∀ (p q : Parser) (prog res : NodeProg),
    p.tokens.length - p.index ≤ n →
    parse_program_loop p prog = Outcome.present res q →
    (∀ s ∈ prog.stmts, node_from p.tokens s) →
    ∀ s ∈ res.stmts, node_from p.tokens s := by
  induction n with
  | zero =>
    intro p q prog res hn h hprog
    rw [parse_program_loop_done p prog (by omega)] at h
    simp at h
    rw [← h.1]; exact hprog
  | succ n ih =>
    intro p q prog res hn h hprog
    by_cases hlt : p.index < p.tokens.length
    · cases hs : parse_stmt p with
      | present stmt r =>
        obtain ⟨hr, hnode⟩ := parse_stmt_present p r stmt hs
        rw [parse_program_loop_present p r prog stmt hlt hs] at h
        have htok : r.tokens = p.tokens := by rw [hr]; rfl
        have hidx : r.index = p.index + 5 := by rw [hr]; rfl
        have := ih r q _ res (by rw [htok, hidx]; omega) h (by
          intro s hs
          rw [htok]
          simp only [List.mem_append, List.mem_singleton] at hs
          rcases hs with hs | rfl
          · exact hprog s hs
          · exact hnode)
        rw [htok] at this
        exact this
      | nullopt r =>
        rw [parse_program_loop_nullopt p r prog hlt hs] at h
        simp at h
      | exit_failure r =>
        rw [parse_program_loop_exit_failure p r prog hlt hs] at h
        simp at h
    · rw [parse_program_loop_done p prog hlt] at h
      simp at h
      rw [← h.1]; exact hprog

/-- Every statement of a program returned by `parse_program` is an exit node or
a declaration node built from tokens of the sequence. -/
theorem parse_program_nodes (toks : List Token) (q : Parser) (res : NodeProg)
    (h : parse_program (Parser.new toks) = Outcome.present res q) :
    ∀ s ∈ res.stmts, node_from toks s :=
  parse_program_loop_nodes_aux _ (Parser.new toks) q (NodeProg.mk []) res (Nat.le_refl _) h
    (by simp)

/-- The characters of a pattern that starts a text occur in the text. -/
theorem isPrefixOf_mem (pat text : List Char) (h : pat.isPrefixOf text = true) :
    ∀ c ∈ pat, c ∈ text := by
  induction pat generalizing text with
  | nil => intro c hc; simp at hc
  | cons a as ih =>
    cases text with
    | nil => simp [List.isPrefixOf] at h
    | cons b bs =>
      simp only [List.isPrefixOf, Bool.and_eq_true, beq_iff_eq] at h
      intro c hc
      rcases List.mem_cons.mp hc with rfl | hc
      · rw [h.1]; exact List.mem_cons_self _ _
      · exact List.mem_cons_of_mem _ (ih bs h.2 c hc)

/-- A pattern with a character that the text lacks does not occur in it. -/
theorem count_occurrences_absent (pat text : List Char) (a : Char) (ha : a ∈ pat)
    (h : a ∉ text) : count_occurrences pat text = 0 := by
  have hnp : ∀ l : List Char, a ∉ l → pat.isPrefixOf l = false := by
    intro l hl
    cases hp : pat.isPrefixOf l with
    | false => rfl
    | true => exact absurd (isPrefixOf_mem pat l hp a ha) hl
  induction text with
  | nil => simp [count_occurrences, hnp [] h]
  | cons c cs ih =>
    have hcs : a ∉ cs := fun hmem => h (List.mem_cons_of_mem _ hmem)
    simp [count_occurrences, hnp (c :: cs) h, ih hcs]

/-- Occurrences of a pattern cannot start inside a text that lacks its first
character. -/
theorem count_occurrences_skip (a : Char) (pat body rest : List Char) (h : a ∉ body) :
    count_occurrences (a :: pat) (body ++ rest) = count_occurrences (a :: pat) rest := by
  induction body with
  | nil => rfl
  | cons c cs ih =>
    have hc : ¬ a = c := fun e => h (by rw [e]; exact List.mem_cons_self _ _)
    have hcs : a ∉ cs := fun hmem => h (List.mem_cons_of_mem _ hmem)
    simp [count_occurrences, List.isPrefixOf, hc, ih hcs]

/-- The header followed by a text without a colon has `start:` once. -/
theorem count_start_label (x : List Char) (h : ':' ∉ x) :
    count_occurrences "start:".data (".text\n\nstart:\n".data ++ x) = 1 := by
  have h0 := count_occurrences_absent "start:".data x ':' (by decide) h
  simp [count_occurrences, List.isPrefixOf]
  exact h0

/-- The header, a body without a full stop and the data section have `.data` once. -/
theorem count_data_section (body : List Char) (h : '.' ∉ body) :
    count_occurrences ".data".data
      (".text\n\nstart:\n".data ++ (body ++ "\n.data\n\nr = 0\n".data)) = 1 := by
  have h0 := count_occurrences_skip '.' "data".data body "\n.data\n\nr = 0\n".data h
  have h1 : count_occurrences ".data".data "\n.data\n\nr = 0\n".data = 1 := by decide
  simp [count_occurrences, List.isPrefixOf]
  exact h0.trans h1

/-- A lexeme character is neither a colon nor a full stop. -/
theorem lexeme_char_plain (c : Char) (h : lexeme_char c = true) : c ≠ ':' ∧ c ≠ '.' := by
  constructor
  · intro hc; subst hc; exact absurd h (by decide)
  · intro hc; subst hc; exact absurd h (by decide)

/-- The block of a parsed statement has neither a colon nor a full stop. -/
theorem stmt_block_plain (toks : List Token) (s : NodeStmt)
    (htoks : ∀ t ∈ toks, ∀ c ∈ t.value.data, lexeme_char c = true)
    (hs : node_from toks s) : ∀ c ∈ (stmt_block s).data, c ≠ ':' ∧ c ≠ '.' := by
  have hfix1 : ∀ c ∈ "    ldi A ".data, c ≠ ':' ∧ c ≠ '.' := by decide
  have hfix2 : ∀ c ∈ "\n\n    lda %r\n    out 0\n    hlt\n".data, c ≠ ':' ∧ c ≠ '.' := by decide
  have hfix3 : ∀ c ∈ "\n    sta %".data, c ≠ ':' ∧ c ≠ '.' := by decide
  have hfix4 : ∀ c ∈ "\n    ldi A, 0\n".data, c ≠ ':' ∧ c ≠ '.' := by decide
  rcases hs with ⟨lit, hlit, _, rfl⟩ | ⟨name, lit, hname, hlit, _, _, rfl⟩
  · have e : (stmt_block (exit_node lit)).data =
        "    ldi A ".data ++ (lit.value.data ++ "\n\n    lda %r\n    out 0\n    hlt\n".data) := by
      simp [stmt_block, exit_node, generate_exit, generate_expr, generate_term,
        generate_int_lit, String.data_append]
    rw [e]
    intro c hc
    rcases List.mem_append.mp hc with h | h
    · exact hfix1 c h
    · rcases List.mem_append.mp h with h | h
      · exact lexeme_char_plain c (htoks lit hlit c h)
      · exact hfix2 c h
  · have e : (stmt_block (int_node name lit)).data =
        "    ldi A ".data ++ (lit.value.data ++ ("\n    sta %".data ++
          (name.value.data ++ "\n    ldi A, 0\n".data))) := by
      simp [stmt_block, int_node, generate_stmt_int, generate_expr, generate_term,
        generate_int_lit, generate_ident, String.data_append]
    rw [e]
    intro c hc
    rcases List.mem_append.mp hc with h | h
    · exact hfix1 c h
    · rcases List.mem_append.mp h with h | h
      · exact lexeme_char_plain c (htoks lit hlit c h)
      · rcases List.mem_append.mp h with h | h
        · exact hfix3 c h
        · rcases List.mem_append.mp h with h | h
          · exact lexeme_char_plain c (htoks name hname c h)
          · exact hfix4 c h

/-- The body of a parsed program has neither a colon nor a full stop. -/
theorem program_body_plain (toks : List Token) (stmts : List NodeStmt)
    (htoks : ∀ t ∈ toks, ∀ c ∈ t.value.data, lexeme_char c = true)
    (hs : ∀ s ∈ stmts, node_from toks s) :
    ∀ c ∈ (program_body stmts).data, c ≠ ':' ∧ c ≠ '.' := by
  induction stmts with
  | nil => intro c hc; simp [program_body] at hc
  | cons s rest ih =>
    intro c hc
    simp only [program_body, String.data_append] at hc
    rcases List.mem_append.mp hc with h | h
    · exact stmt_block_plain toks s htoks (hs s (List.mem_cons_self _ _)) c h
    · exact ih (fun t ht => hs t (List.mem_cons_of_mem _ ht)) c h

/-- An exit node and a declaration node are emitted by `generate`. -/
theorem node_from_emittable (toks : List Token) (s : NodeStmt) (h : node_from toks s) :
    emittable s = true := by
  rcases h with ⟨lit, _, _, rfl⟩ | ⟨name, lit, _, _, _, _, rfl⟩ <;> rfl

/-- Every token is read back from its lexeme when the lexeme is followed by
nothing or by a blank (by induction on a bound of the length of the source). -/
theorem tokenize_relex_aux (n : Nat) : ∀ file : List Char, file.length ≤ n →
    ∀ t ∈ tokenize file, ∀ rest : List Char, (∀ c ∈ rest.head?, c = ' ') →
      tokenize (t.value.data ++ rest) = t :: tokenize rest := by
  induction n with
  | zero =>
    intro file hlen t ht
    have : file = [] := List.length_eq_zero.mp (Nat.le_zero.mp hlen)
    subst this
    simp [tokenize_nil] at ht
  | succ n ih =>
    intro file hlen t ht
    cases file with
    | nil => simp [tokenize_nil] at ht
    | cons ch file =>
      have hfile : file.length ≤ n := by simpa using hlen
      have hd : ∀ f : Char → Bool, (file.dropWhile f).length ≤ n :=
        fun f => Nat.le_trans (List.dropWhile_sublist f).length_le hfile
      by_cases h1 : ch.isDigit = true
      · rw [tokenize_digit ch file h1] at ht
        rcases List.mem_cons.mp ht with rfl | ht
        · intro rest hrest
          apply tokenize_digit_run _ rest (by simp)
          · intro c hc
            rcases List.mem_cons.mp hc with rfl | hc
            · exact h1
            · exact List.mem_takeWhile_imp hc
          · intro c hc
            rw [hrest c hc]; decide
        · exact ih _ (hd _) t ht
      · by_cases h2 : ch.isAlpha = true
        · rw [tokenize_alpha ch file h2] at ht
          rcases List.mem_cons.mp ht with rfl | ht
          · intro rest hrest
            rw [classify_word_value]
            apply tokenize_alpha_run _ rest (by simp)
            · intro c hc
              rcases List.mem_cons.mp hc with rfl | hc
              · exact h2
              · exact List.mem_takeWhile_imp hc
            · intro c hc
              rw [hrest c hc]; decide
          · exact ih _ (hd _) t ht
        · by_cases h3 : ch = '('
          · subst h3
            rw [tokenize_open_paren] at ht
            rcases List.mem_cons.mp ht with rfl | ht
            · intro rest _; exact tokenize_open_paren rest
            · exact ih _ hfile t ht
          · by_cases h4 : ch = ')'
            · subst h4
              rw [tokenize_close_paren] at ht
              rcases List.mem_cons.mp ht with rfl | ht
              · intro rest _; exact tokenize_close_paren rest
              · exact ih _ hfile t ht
            · by_cases h5 : ch = ';'
              · subst h5
                rw [tokenize_semicolon] at ht
                rcases List.mem_cons.mp ht with rfl | ht
                · intro rest _; exact tokenize_semicolon rest
                · exact ih _ hfile t ht
              · by_cases h6 : ch = '='
                · subst h6
                  rw [tokenize_assign] at ht
                  rcases List.mem_cons.mp ht with rfl | ht
                  · intro rest _; exact tokenize_assign rest
                  · exact ih _ hfile t ht
                · rw [tokenize_skip ch file (by simpa using h1) (by simpa using h2) h3 h4 h5 h6]
                    at ht
                  exact ih _ hfile t ht

/-- Tokens that are read back from their lexemes are read back from their
lexemes joined with blanks. -/
theorem tokenize_join_lexemes (toks : List Token)
    (h : ∀ t ∈ toks, ∀ rest : List Char, (∀ c ∈ rest.head?, c = ' ') →
      tokenize (t.value.data ++ rest) = t :: tokenize rest) :
    tokenize (join_lexemes toks) = toks := by
  induction toks with
  | nil => simp [join_lexemes, tokenize_nil]
  | cons t rest ih =>
    have hrest := ih (fun u hu => h u (List.mem_cons_of_mem _ hu))
    cases rest with
    | nil =>
      have := h t (List.mem_cons_self _ _) [] (by simp)
      simpa [join_lexemes, tokenize_nil] using this
    | cons u rest =>
      rw [join_lexemes, h t (List.mem_cons_self _ _) _ (by simp), tokenize_blank, hrest]

/-- Tokenizing the joined lexemes of the tokens of any source gives the tokens
back. -/
theorem tokenize_relex (file : List Char) :
    tokenize (join_lexemes (tokenize file)) = tokenize file :=
  tokenize_join_lexemes _ (tokenize_relex_aux file.length file (Nat.le_refl _))

/-! ## Every token of the tokenizer -/

/-- A property that holds of the token of every run of digits, of every run of
letters and of the four punctuation tokens holds of every token of every
source (by induction on a bound of the length of the source). -/
theorem tokenize_forall_aux (P : Token → Prop)
    (hdigits : ∀ run : List Char, run ≠ [] → (∀ c ∈ run, c.isDigit = true) →
      P (Token.mk TokenType.INT (String.mk run)))
    (hletters : ∀ run : List Char, run ≠ [] → (∀ c ∈ run, c.isAlpha = true) →
      P (classify_word (String.mk run)))
    (h1 : P (Token.mk TokenType.open_paren "(")) (h2 : P (Token.mk TokenType.close_paren ")"))
    (h3 : P (Token.mk TokenType.semicolon ";")) (h4 : P (Token.mk TokenType.assign "="))
    (n : Nat) : ∀ file : List Char, file.length ≤ n → ∀ t ∈ tokenize file, P t := by
  induction n with
  | zero =>
    intro file hlen t ht
    have : file = [] := List.length_eq_zero.mp (Nat.le_zero.mp hlen)
    subst this
    simp [tokenize_nil] at ht
  | succ n ih =>
    intro file hlen t ht
    cases file with
    | nil => simp [tokenize_nil] at ht
    | cons ch file =>
      have hfile : file.length ≤ n := by simpa using hlen
      have hd : ∀ f : Char → Bool, (file.dropWhile f).length ≤ n :=
        fun f => Nat.le_trans (List.dropWhile_sublist f).length_le hfile
      by_cases c1 : ch.isDigit = true
      · rw [tokenize_digit ch file c1] at ht
        rcases List.mem_cons.mp ht with rfl | ht
        · apply hdigits _ (by simp)
          intro c hc
          rcases List.mem_cons.mp hc with rfl | hc
          · exact c1
          · exact List.mem_takeWhile_imp hc
        · exact ih _ (hd _) t ht
      · by_cases c2 : ch.isAlpha = true
        · rw [tokenize_alpha ch file c2] at ht
          rcases List.mem_cons.mp ht with rfl | ht
          · apply hletters _ (by simp)
            intro c hc
            rcases List.mem_cons.mp hc with rfl | hc
            · exact c2
            · exact List.mem_takeWhile_imp hc
          · exact ih _ (hd _) t ht
        · by_cases c3 : ch = '('
          · subst c3
            rw [tokenize_open_paren] at ht
            rcases List.mem_cons.mp ht with rfl | ht
            · exact h1
            · exact ih _ hfile t ht
          · by_cases c4 : ch = ')'
            · subst c4
              rw [tokenize_close_paren] at ht
              rcases List.mem_cons.mp ht with rfl | ht
              · exact h2
              · exact ih _ hfile t ht
            · by_cases c5 : ch = ';'
              · subst c5
                rw [tokenize_semicolon] at ht
                rcases List.mem_cons.mp ht with rfl | ht
                · exact h3
                · exact ih _ hfile t ht
              · by_cases c6 : ch = '='
                · subst c6
                  rw [tokenize_assign] at ht
                  rcases List.mem_cons.mp ht with rfl | ht
                  · exact h4
                  · exact ih _ hfile t ht
                · rw [tokenize_skip ch file (by simpa using c1) (by simpa using c2) c3 c4 c5 c6]
                    at ht
                  exact ih _ hfile t ht

/-- The lexeme of the token of a run of letters agrees with its kind. -/
theorem classify_word_agrees (run : List Char) (hne : run ≠ [])
    (h : ∀ c ∈ run, c.isAlpha = true) : lexeme_agrees (classify_word (String.mk run)) = true := by
  unfold classify_word
  split
  · rename_i he; simp [lexeme_agrees, he]
  · split
    · rename_i he; simp [lexeme_agrees, he]
    · rename_i he1 he2
      simp [lexeme_agrees, he1, he2, hne]
      exact h


/-! ## Sources put together -/

/-- After a character of a class, the run of the class is read the same way
whether or not a text follows whose first character cannot continue the run;
and what is left after the run ends as the whole text does. -/
theorem run_split (f : Char → Bool) (b : List Char) : ∀ (a : List Char) (c : Char),
    f c = true →
    (∀ x ∈ (c :: a).getLast?, ∀ y ∈ b.head?, ¬ (f x = true ∧ f y = true)) →
    (a ++ b).takeWhile f = a.takeWhile f ∧ (a ++ b).dropWhile f = a.dropWhile f ++ b ∧
      ∀ x ∈ (a.dropWhile f).getLast?, x ∈ (c :: a).getLast? := by
  intro a
  induction a with
  | nil =>
    intro c hc hseam
    have hb : ∀ y ∈ b.head?, f y = false := by
      intro y hy
      have := hseam c (by simp) y hy
      simpa [hc] using this
    cases b with
    | nil => simp
    | cons y ys =>
      have hy : f y = false := hb y (by simp)
      simp [List.takeWhile_cons, List.dropWhile_cons, hy]
  | cons x xs ih =>
    intro c _ hseam
    by_cases hx : f x = true
    · have hseam2 : ∀ z ∈ (x :: xs).getLast?, ∀ y ∈ b.head?, ¬ (f z = true ∧ f y = true) := by
        intro z hz
        exact hseam z (by simpa [List.getLast?_cons_cons] using hz)
      obtain ⟨h1, h2, h3⟩ := ih x hx hseam2
      refine ⟨?_, ?_, ?_⟩
      · simp [List.takeWhile_cons, hx, h1]
      · simp [List.dropWhile_cons, hx, h2]
      · intro z hz
        have : z ∈ (xs.dropWhile f).getLast? := by simpa [List.dropWhile_cons, hx] using hz
        have := h3 z this
        simpa [List.getLast?_cons_cons] using this
    · refine ⟨?_, ?_, ?_⟩
      · simp [List.takeWhile_cons, hx]
      · simp [List.dropWhile_cons, hx]
      · intro z hz
        have : z ∈ (x :: xs).getLast? := by simpa [List.dropWhile_cons, hx] using hz
        simpa [List.getLast?_cons_cons] using this

/-- Tokenizing two texts put together gives the tokens of the first followed by
those of the second, unless a run of digits or of letters crosses the seam (by
induction on a bound of the length of the first text). -/
theorem tokenize_append_aux (n : Nat) : ∀ a : List Char, a.length ≤ n → ∀ b : List Char,
    (∀ x ∈ a.getLast?, ∀ y ∈ b.head?,
      ¬ (x.isDigit = true ∧ y.isDigit = true) ∧ ¬ (x.isAlpha = true ∧ y.isAlpha = true)) →
    tokenize (a ++ b) = tokenize a ++ tokenize b := by
  induction n with
  | zero =>
    intro a hlen b _
    have : a = [] := List.length_eq_zero.mp (Nat.le_zero.mp hlen)
    subst this
    simp [tokenize_nil]
  | succ n ih =>
    intro a hlen b hseam
    cases a with
    | nil => simp [tokenize_nil]
    | cons ch a =>
      have ha : a.length ≤ n := by simpa using hlen
      have hd : ∀ f : Char → Bool, (a.dropWhile f).length ≤ n :=
        fun f => Nat.le_trans (List.dropWhile_sublist f).length_le ha
      have hrest : ∀ x ∈ a.getLast?, ∀ y ∈ b.head?,
          ¬ (x.isDigit = true ∧ y.isDigit = true) ∧ ¬ (x.isAlpha = true ∧ y.isAlpha = true) := by
        intro x hx
        apply hseam x
        cases a with
        | nil => simp at hx
        | cons z zs => simpa [List.getLast?_cons_cons] using hx
      rw [List.cons_append]
      by_cases c1 : ch.isDigit = true
      · obtain ⟨h1, h2, h3⟩ := run_split Char.isDigit b a ch c1
          (fun x hx y hy => (hseam x hx y hy).1)
        rw [tokenize_digit ch _ c1, tokenize_digit ch _ c1, h1, h2,
          ih _ (hd _) b (fun x hx => hseam x (h3 x hx))]
        rfl
      · by_cases c2 : ch.isAlpha = true
        · obtain ⟨h1, h2, h3⟩ := run_split Char.isAlpha b a ch c2
            (fun x hx y hy => (hseam x hx y hy).2)
          rw [tokenize_alpha ch _ c2, tokenize_alpha ch _ c2, h1, h2,
            ih _ (hd _) b (fun x hx => hseam x (h3 x hx))]
          rfl
        · by_cases c3 : ch = '('
          · subst c3
            rw [tokenize_open_paren, tokenize_open_paren, ih a ha b hrest]
            rfl
          · by_cases c4 : ch = ')'
            · subst c4
              rw [tokenize_close_paren, tokenize_close_paren, ih a ha b hrest]
              rfl
            · by_cases c5 : ch = ';'
              · subst c5
                rw [tokenize_semicolon, tokenize_semicolon, ih a ha b hrest]
                rfl
              · by_cases c6 : ch = '='
                · subst c6
                  rw [tokenize_assign, tokenize_assign, ih a ha b hrest]
                  rfl
                · rw [tokenize_skip ch _ (by simpa using c1) (by simpa using c2) c3 c4 c5 c6,
                    tokenize_skip ch _ (by simpa using c1) (by simpa using c2) c3 c4 c5 c6]
                  exact ih a ha b hrest

/-- Tokenizing two texts put together gives the tokens of the first followed by
those of the second, unless a run of digits or of letters crosses the seam. -/
theorem tokenize_append (a b : List Char)
    (hseam : ∀ x ∈ a.getLast?, ∀ y ∈ b.head?,
      ¬ (x.isDigit = true ∧ y.isDigit = true) ∧ ¬ (x.isAlpha = true ∧ y.isAlpha = true)) :
    tokenize (a ++ b) = tokenize a ++ tokenize b :=
  tokenize_append_aux a.length a (Nat.le_refl _) b hseam

/-- A digit is not a letter. -/
theorem not_alpha_of_digit (ch : Char) (h : ch.isDigit = true) : ch.isAlpha = false := by
  cases ha : ch.isAlpha with
  | false => rfl
  | true => rw [not_digit_of_alpha ch ha] at h; exact absurd h (by simp)

/-- The first character of a non-empty text followed by another text. -/
theorem head?_append_mem (run b : List Char) (hne : run ≠ []) :
    ∀ y ∈ (run ++ b).head?, y ∈ run := by
  cases run with
  | nil => exact absurd rfl hne
  | cons c cs => intro y hy; simp at hy; simp [hy]

/-- Characters that are in no lexeme are skipped. -/
theorem tokenize_skip_all (seps b : List Char) (h : ∀ c ∈ seps, lexeme_char c = false) :
    tokenize (seps ++ b) = tokenize b := by
  induction seps with
  | nil => rfl
  | cons c cs ih =>
    have hc : lexeme_char c = false := h c (List.mem_cons_self _ _)
    simp only [lexeme_char, Bool.or_eq_false_iff, decide_eq_false_iff_not] at hc
    obtain ⟨⟨⟨⟨⟨h1, h2⟩, h3⟩, h4⟩, h5⟩, h6⟩ := hc
    rw [List.cons_append, tokenize_skip c _ h1 h2 h3 h4 h5 h6]
    exact ih (fun d hd => h d (List.mem_cons_of_mem _ hd))

/-- The lexemes of the tokens, put together, are the characters of the source
that are digits, letters or punctuation (by induction on a bound of the length
of the source). -/
theorem tokenize_lexemes_aux (n : Nat) : ∀ file : List Char, file.length ≤ n →
    ((tokenize file).map (fun t => t.value.data)).flatten = file.filter lexeme_char := by
  induction n with
  | zero =>
    intro file hlen
    have : file = [] := List.length_eq_zero.mp (Nat.le_zero.mp hlen)
    subst this
    simp [tokenize_nil]
  | succ n ih =>
    intro file hlen
    cases file with
    | nil => simp [tokenize_nil]
    | cons ch file =>
      have hfile : file.length ≤ n := by simpa using hlen
      have hd : ∀ f : Char → Bool, (file.dropWhile f).length ≤ n :=
        fun f => Nat.le_trans (List.dropWhile_sublist f).length_le hfile
      have hrun : ∀ f : Char → Bool, (∀ c, f c = true → lexeme_char c = true) →
          file.filter lexeme_char =
            file.takeWhile f ++ (file.dropWhile f).filter lexeme_char := by
        intro f hf
        conv => lhs; rw [← List.takeWhile_append_dropWhile f file]
        rw [List.filter_append]
        congr 1
        apply List.filter_eq_self.mpr
        intro c hc
        exact hf c (List.mem_takeWhile_imp hc)
      by_cases c1 : ch.isDigit = true
      · have hl : lexeme_char ch = true := by simp [lexeme_char, c1]
        rw [tokenize_digit ch file c1, List.filter_cons_of_pos hl,
          hrun Char.isDigit (fun c hc => by simp [lexeme_char, hc])]
        simp [ih _ (hd _)]
      · by_cases c2 : ch.isAlpha = true
        · have hl : lexeme_char ch = true := by simp [lexeme_char, c2]
          rw [tokenize_alpha ch file c2, List.filter_cons_of_pos hl,
            hrun Char.isAlpha (fun c hc => by simp [lexeme_char, hc])]
          simp [ih _ (hd _), classify_word_value]
        · by_cases c3 : ch = '('
          · subst c3
            rw [tokenize_open_paren, List.filter_cons_of_pos (by decide)]
            simp [ih _ hfile]
          · by_cases c4 : ch = ')'
            · subst c4
              rw [tokenize_close_paren, List.filter_cons_of_pos (by decide)]
              simp [ih _ hfile]
            · by_cases c5 : ch = ';'
              · subst c5
                rw [tokenize_semicolon, List.filter_cons_of_pos (by decide)]
                simp [ih _ hfile]
              · by_cases c6 : ch = '='
                · subst c6
                  rw [tokenize_assign, List.filter_cons_of_pos (by decide)]
                  simp [ih _ hfile]
                · rw [tokenize_skip ch file (by simpa using c1) (by simpa using c2) c3 c4 c5 c6,
                    List.filter_cons_of_neg (by simp [lexeme_char, c1, c2, c3, c4, c5, c6])]
                  exact ih _ hfile

/-! ## The parser on a statement that fails -/

/-- On a token that is not an integer literal `parse_expr` returns nothing, the
cursor stays, and two diagnostics are written. -/
theorem parse_expr_not_int (p : Parser) (tok : Token)
    (h : p.tokens[p.index]? = some tok) (hty : tok.type ≠ TokenType.INT) :
    parse_expr p = Outcome.nullopt ((p.log "parse_term_fail").log "parse_expr_fail") := by
  simp [parse_expr, parse_term, get_token_type_eq p _ tok h, hty]

/-- What `parse_stmt` does on `exit (` followed by a token that is not an
integer literal. -/
theorem parse_stmt_exit_not_int (p : Parser) (t0 t1 t2 : Token)
    (h0 : p.tokens[p.index]? = some t0) (h1 : p.tokens[p.index + 1]? = some t1)
    (h2 : p.tokens[p.index + 2]? = some t2)
    (ty0 : t0.type = TokenType.return_) (ty1 : t1.type = TokenType.open_paren)
    (ty2 : t2.type ≠ TokenType.INT) :
    parse_stmt p =
      Outcome.nullopt (((p.advance 2).log "parse_term_fail").log "parse_expr_fail") := by
  have hlt : p.index + 1 < p.tokens.length := (List.getElem?_eq_some_iff.mp h1).1
  have hla : lookahead p TokenType.return_ TokenType.open_paren = Except.ok true := by
    simp [lookahead, get_token_type_eq p _ t0 h0, get_token_type_eq p _ t1 h1, ty0, ty1, hlt]
  have he := parse_expr_not_int (p.advance 2) t2 h2 ty2
  unfold parse_stmt
  rw [hla]
  simp only
  unfold parse_stmt_exit
  rw [he]

/-- What `parse_stmt` does on `int <name>` followed by a token that is not `=`. -/
theorem parse_stmt_int_no_assign (p : Parser) (t0 t1 t2 : Token)
    (h0 : p.tokens[p.index]? = some t0) (h1 : p.tokens[p.index + 1]? = some t1)
    (h2 : p.tokens[p.index + 2]? = some t2)
    (ty0 : t0.type = TokenType.int_) (ty1 : t1.type = TokenType.ident)
    (ty2 : t2.type ≠ TokenType.assign) :
    parse_stmt p =
      Outcome.nullopt (((p.advance 1).advance 1).log "expecting assignment sign '=' ") := by
  have hlt : p.index + 1 < p.tokens.length := (List.getElem?_eq_some_iff.mp h1).1
  have hla1 : lookahead p TokenType.return_ TokenType.open_paren = Except.ok false := by
    simp [lookahead, get_token_type_eq p _ t0 h0, ty0]
  have hla2 : lookahead p TokenType.int_ TokenType.ident = Except.ok true := by
    simp [lookahead, get_token_type_eq p _ t0 h0, get_token_type_eq p _ t1 h1, ty0, ty1, hlt]
  have hg1 : get_token (p.advance 1) = Except.ok t1 := get_token_eq _ t1 h1
  have hg2 : get_token_type ((p.advance 1).advance 1) ((p.advance 1).advance 1).index
      = Except.ok t2.type := get_token_type_eq _ _ t2 h2
  unfold parse_stmt
  rw [hla1]
  simp only
  rw [hla2]
  simp only
  unfold parse_stmt_int
  rw [hg1]
  simp only
  rw [hg2]
  simp only [ne_eq, ty2, not_false_eq_true, if_true]

/-- What `parse_stmt` does on `int <name> =` followed by a token that is not an
integer literal. -/
theorem parse_stmt_int_not_int (p : Parser) (t0 t1 t2 t3 : Token)
    (h0 : p.tokens[p.index]? = some t0) (h1 : p.tokens[p.index + 1]? = some t1)
    (h2 : p.tokens[p.index + 2]? = some t2) (h3 : p.tokens[p.index + 3]? = some t3)
    (ty0 : t0.type = TokenType.int_) (ty1 : t1.type = TokenType.ident)
    (ty2 : t2.type = TokenType.assign) (ty3 : t3.type ≠ TokenType.INT) :
    parse_stmt p =
      Outcome.nullopt (((((p.advance 1).advance 1).advance 1).log "parse_term_fail").log
        "parse_expr_fail") := by
  have hlt : p.index + 1 < p.tokens.length := (List.getElem?_eq_some_iff.mp h1).1
  have hla1 : lookahead p TokenType.return_ TokenType.open_paren = Except.ok false := by
    simp [lookahead, get_token_type_eq p _ t0 h0, ty0]
  have hla2 : lookahead p TokenType.int_ TokenType.ident = Except.ok true := by
    simp [lookahead, get_token_type_eq p _ t0 h0, get_token_type_eq p _ t1 h1, ty0, ty1, hlt]
  have hg1 : get_token (p.advance 1) = Except.ok t1 := get_token_eq _ t1 h1
  have hg2 : get_token_type ((p.advance 1).advance 1) ((p.advance 1).advance 1).index
      = Except.ok t2.type := get_token_type_eq _ _ t2 h2
  have he := parse_expr_not_int (((p.advance 1).advance 1).advance 1) t3 h3 ty3
  unfold parse_stmt
  rw [hla1]
  simp only
  rw [hla2]
  simp only
  unfold parse_stmt_int
  rw [hg1]
  simp only
  rw [hg2]
  simp only [ty2, ne_eq, not_true_eq_false, if_false]
  rw [he]

/-- On statements of the grammar followed by any tokens, the loop of
`parse_program` appends the nodes of the statements in order and goes on with
the cursor behind them. -/
theorem parse_program_loop_grammar_then (ss : List (List Token)) (nodes : List NodeStmt)
    (h : List.Forall₂ (fun s n => grammar_stmt s = some n) ss nodes) :
    ∀ (pre post : List Token) (cerr : List String) (prog : NodeProg),
      parse_program_loop (Parser.mk (pre ++ (ss.flatten ++ post)) pre.length cerr) prog =
        parse_program_loop
          (Parser.mk (pre ++ (ss.flatten ++ post)) (pre.length + ss.flatten.length) cerr)
          (NodeProg.mk (prog.stmts ++ nodes)) := by
  induction h with
  | nil =>
    intro pre post cerr prog
    simp
  | @cons s n ss nodes hsn _ ih =>
    intro pre post cerr prog
    obtain ⟨t0, t1, t2, t3, t4, hs, _⟩ := grammar_stmt_some s n hsn
    have hlen : s.length = 5 := by rw [hs]; rfl
    have hstep := parse_stmt_grammar pre s (ss.flatten ++ post) cerr n hsn
    have e : pre ++ ((s :: ss).flatten ++ post) = pre ++ (s ++ (ss.flatten ++ post)) := by simp
    rw [e, parse_program_loop_present _ _ prog n (by simp [hlen]) hstep]
    have := ih (pre ++ s) post cerr (NodeProg.mk (prog.stmts ++ [n]))
    simp only [List.length_append, hlen, List.append_assoc] at this
    rw [this]
    simp [hlen, Nat.add_assoc]

/-- When `parse_stmt` returns nothing on what follows some statements of the
grammar, `parse_program` returns nothing either. -/
theorem parse_program_fails_after (ss : List (List Token)) (nodes : List NodeStmt)
    (h : List.Forall₂ (fun s n => grammar_stmt s = some n) ss nodes)
    (tail : List Token) (q : Parser) (hne : tail ≠ [])
    (hs : parse_stmt (Parser.mk (ss.flatten ++ tail) ss.flatten.length []) = Outcome.nullopt q) :
    parse_program (Parser.new (ss.flatten ++ tail)) =
      Outcome.nullopt (q.log "parse_prog_fail") := by
  have hloop := parse_program_loop_grammar_then ss nodes h [] tail [] (NodeProg.mk [])
  simp only [List.nil_append, List.length_nil, Nat.zero_add] at hloop
  unfold parse_program Parser.new
  rw [hloop]
  apply parse_program_loop_nullopt _ _ _ _ hs
  have : 0 < tail.length := List.length_pos.mpr hne
  simp
  omega

/-! ## Rounds of the loop of the parser -/

/-- After `k` rounds the tokens are the same and the cursor has moved by `5 * k`; the
last round started inside the sequence. -/
theorem Rounds_index (p r : Parser) (k : Nat) (h : Rounds p k r) :
    r.tokens = p.tokens ∧ r.index = p.index + 5 * k ∧
      (0 < k → p.index + 5 * (k - 1) < p.tokens.length) := by
  induction h with
  | zero p => simp
  | succ p q r stmt k hlt hs _ ih =>
    obtain ⟨hq, _⟩ := parse_stmt_present p q stmt hs
    have htok : q.tokens = p.tokens := by rw [hq]; rfl
    have hidx : q.index = p.index + 5 := by rw [hq]; rfl
    obtain ⟨h1, h2, h3⟩ := ih
    refine ⟨by rw [h1, htok], by rw [h2, hidx]; omega, ?_⟩
    intro _
    cases k with
    | zero => simpa using hlt
    | succ k =>
      have := h3 (Nat.succ_pos k)
      rw [htok, hidx] at this
      simp at this ⊢
      omega

/-- Every run of the loop of `parse_program` is a number of rounds that return
a statement, followed by the end of the sequence, by a call of `parse_stmt`
that returns nothing, or by one in which the process exits (by induction on a
bound of the number of tokens left). -/
theorem parse_program_loop_run_aux (n : Nat) : ∀ (p : Parser) (prog : NodeProg),
    p.tokens.length - p.index ≤ n →
    ∃ (k : Nat) (r : Parser), Rounds p k r ∧
      ((¬ r.index < r.tokens.length ∧ ∃ res : NodeProg,
          res.stmts.length = prog.stmts.length + k ∧
          parse_program_loop p prog = Outcome.present res r) ∨
        (r.index < r.tokens.length ∧ ∃ q : Parser, parse_stmt r = Outcome.nullopt q ∧
          parse_program_loop p prog = Outcome.nullopt (q.log "parse_prog_fail")) ∨
        (r.index < r.tokens.length ∧ ∃ q : Parser, parse_stmt r = Outcome.exit_failure q ∧
          parse_program_loop p prog = Outcome.exit_failure q)) := by
  induction n with
  | zero =>
    intro p prog hn
    have hnot : ¬ p.index < p.tokens.length := by omega
    exact ⟨0, p, Rounds.zero p, Or.inl ⟨hnot, prog, rfl, parse_program_loop_done p prog hnot⟩⟩
  | succ n ih =>
    intro p prog hn
    by_cases hlt : p.index < p.tokens.length
    · cases hs : parse_stmt p with
      | present stmt q =>
        obtain ⟨hq, _⟩ := parse_stmt_present p q stmt hs
        have htok : q.tokens = p.tokens := by rw [hq]; rfl
        have hidx : q.index = p.index + 5 := by rw [hq]; rfl
        obtain ⟨k, r, hr, hcases⟩ := ih q (NodeProg.mk (prog.stmts ++ [stmt]))
          (by rw [htok, hidx]; omega)
        refine ⟨k + 1, r, Rounds.succ p q r stmt k hlt hs hr, ?_⟩
        rw [parse_program_loop_present p q prog stmt hlt hs]
        rcases hcases with ⟨h1, res, h2, h3⟩ | h | h
        · refine Or.inl ⟨h1, res, ?_, h3⟩
          rw [h2]; simp; omega
        · exact Or.inr (Or.inl h)
        · exact Or.inr (Or.inr h)
      | nullopt q =>
        exact ⟨0, p, Rounds.zero p, Or.inr (Or.inl ⟨hlt, q, hs,
          parse_program_loop_nullopt p q prog hlt hs⟩)⟩
      | exit_failure q =>
        exact ⟨0, p, Rounds.zero p, Or.inr (Or.inr ⟨hlt, q, hs,
          parse_program_loop_exit_failure p q prog hlt hs⟩)⟩
    · exact ⟨0, p, Rounds.zero p, Or.inl ⟨hlt, prog, rfl, parse_program_loop_done p prog hlt⟩⟩

/-! ## Programs the parser returns -/

/-- On a program returned by `parse_program`, `generate` finishes and writes
the header, the blocks of the statements and the data section. -/
theorem generate_parsed (toks : List Token) (res : NodeProg) (q : Parser)
    (h : parse_program (Parser.new toks) = Outcome.present res q) :
    generate res = GenOutcome.finished
      (".text\n\nstart:\n" ++ program_body res.stmts ++ "\n.data\n\nr = 0\n") := by
  have hnodes := parse_program_nodes toks q res h
  unfold generate
  rw [generate_loop_emittable res.stmts (fun s hs => node_from_emittable _ s (hnodes s hs))]
  simp [String.append_assoc]

/-- The program of the tokens of `int x = 5; exit(42);`. -/
theorem parse_program_example :
    parse_program (Parser.new
        [Token.mk TokenType.int_ "int", Token.mk TokenType.ident "x",
          Token.mk TokenType.assign "=", Token.mk TokenType.INT "5",
          Token.mk TokenType.semicolon ";",
          Token.mk TokenType.return_ "exit", Token.mk TokenType.open_paren "(",
          Token.mk TokenType.INT "42", Token.mk TokenType.close_paren ")",
          Token.mk TokenType.semicolon ";"]) =
      Outcome.present
        (NodeProg.mk [int_node (Token.mk TokenType.ident "x") (Token.mk TokenType.INT "5"),
          exit_node (Token.mk TokenType.INT "42")])
        (Parser.mk
          [Token.mk TokenType.int_ "int", Token.mk TokenType.ident "x",
            Token.mk TokenType.assign "=", Token.mk TokenType.INT "5",
            Token.mk TokenType.semicolon ";",
            Token.mk TokenType.return_ "exit", Token.mk TokenType.open_paren "(",
            Token.mk TokenType.INT "42", Token.mk TokenType.close_paren ")",
            Token.mk TokenType.semicolon ";"] 10 []) := by
  rw [parse_program, parse_program_loop_present _ _ _ _ (by decide) (by rfl),
    parse_program_loop_present _ _ _ _ (by decide) (by rfl),
    parse_program_loop_done _ _ (by decide)]
  rfl

/-! ## The claims -/

/-- C1 (the code departs from the claim): the tokens of `exit(42((` and those of
`exit(42` are not a concatenation of statements of the grammar, yet
`parse_program` returns a program with one exit statement for each: after the
expression the exit branch moves the cursor by two without looking at the
tokens (or at the end of the sequence). -/
theorem C1_exit_accepted_without_close_paren_semicolon :
    (is_statements (tokenize "exit(42((".toList) = false ∧
      parse_program (Parser.new (tokenize "exit(42((".toList)) =
        Outcome.present (NodeProg.mk [exit_node (Token.mk TokenType.INT "42")])
          (Parser.mk (tokenize "exit(42((".toList) 5 [])) ∧
    (is_statements (tokenize "exit(42".toList) = false ∧
      parse_program (Parser.new (tokenize "exit(42".toList)) =
        Outcome.present (NodeProg.mk [exit_node (Token.mk TokenType.INT "42")])
          (Parser.mk (tokenize "exit(42".toList) 5 [])) := by
  have h1 : tokenize "exit(42((".toList =
      [Token.mk TokenType.return_ "exit", Token.mk TokenType.open_paren "(",
        Token.mk TokenType.INT "42", Token.mk TokenType.open_paren "(",
        Token.mk TokenType.open_paren "("] := by
    simp [tokenize, tokenize_loop, classify_word]
  have h2 : tokenize "exit(42".toList =
      [Token.mk TokenType.return_ "exit", Token.mk TokenType.open_paren "(",
        Token.mk TokenType.INT "42"] := by
    simp [tokenize, tokenize_loop, classify_word]
  rw [h1, h2]
  refine ⟨⟨by decide, ?_⟩, ⟨by decide, ?_⟩⟩
  · rw [parse_program, parse_program_loop_present _ _ _ _ (by decide) (by rfl),
      parse_program_loop_done _ _ (by decide)]
    rfl
  · rw [parse_program, parse_program_loop_present _ _ _ _ (by decide) (by rfl),
      parse_program_loop_done _ _ (by decide)]
    rfl

/-- C2 (the code departs from the claim): on the tokens of `exit (`, `int x`,
`int x =` and `int x = 5` the parser looks up a token at the end of the
sequence, so `get_token_type` takes its out-of-range branch and the process
exits instead of `parse_program` returning; only the second token of a
statement is looked up behind a bounds check. -/
theorem C2_lookup_past_end_exits :
    parse_program (Parser.new (tokenize "exit (".toList)) =
      Outcome.exit_failure (Parser.mk (tokenize "exit (".toList) 2 ["get_token_type fail"]) ∧
    parse_program (Parser.new (tokenize "int x".toList)) =
      Outcome.exit_failure (Parser.mk (tokenize "int x".toList) 2 ["get_token_type fail"]) ∧
    parse_program (Parser.new (tokenize "int x =".toList)) =
      Outcome.exit_failure (Parser.mk (tokenize "int x =".toList) 3 ["get_token_type fail"]) ∧
    parse_program (Parser.new (tokenize "int x = 5".toList)) =
      Outcome.exit_failure (Parser.mk (tokenize "int x = 5".toList) 4 ["get_token_type fail"]) := by
  have h1 : tokenize "exit (".toList =
      [Token.mk TokenType.return_ "exit", Token.mk TokenType.open_paren "("] := by
    simp [tokenize, tokenize_loop, classify_word]
  have h2 : tokenize "int x".toList =
      [Token.mk TokenType.int_ "int", Token.mk TokenType.ident "x"] := by
    simp [tokenize, tokenize_loop, classify_word]
  have h3 : tokenize "int x =".toList =
      [Token.mk TokenType.int_ "int", Token.mk TokenType.ident "x",
        Token.mk TokenType.assign "="] := by
    simp [tokenize, tokenize_loop, classify_word]
  have h4 : tokenize "int x = 5".toList =
      [Token.mk TokenType.int_ "int", Token.mk TokenType.ident "x",
        Token.mk TokenType.assign "=", Token.mk TokenType.INT "5"] := by
    simp [tokenize, tokenize_loop, classify_word]
  rw [h1, h2, h3, h4]
  refine ⟨?_, ?_, ?_, ?_⟩ <;>
    exact parse_program_loop_exit_failure _ _ _ (by decide) (by rfl)

/-- C3: a token sequence that is the concatenation of `n` statements of the
grammar parses to a program with exactly `n` statements, the `i`-th being the
node the `i`-th statement denotes (an exit node carrying its integer literal
token, or a declaration node carrying its identifier and integer literal
tokens); the cursor ends at the end of the sequence and nothing is written to
the diagnostics.  The empty sequence parses to the empty program. -/
theorem C3_parse_program_complete (ss : List (List Token)) (nodes : List NodeStmt)
    (h : List.Forall₂ (fun s n => grammar_stmt s = some n) ss nodes) :
    parse_program (Parser.new ss.flatten) =
        Outcome.present (NodeProg.mk nodes) (Parser.mk ss.flatten ss.flatten.length []) ∧
      nodes.length = ss.length ∧
      parse_program (Parser.new []) = Outcome.present (NodeProg.mk []) (Parser.new []) := by
  refine ⟨?_, h.length_eq.symm, ?_⟩
  · have := parse_program_loop_grammar ss nodes h [] [] (NodeProg.mk [])
    simpa [parse_program, Parser.new] using this
  · exact parse_program_loop_done _ _ (by simp [Parser.new])

/-- C3 at the ten tokens of `int x = 5; exit(42);`. -/
theorem C3_parse_program_complete_witness :
    List.Forall₂ (fun s n => grammar_stmt s = some n)
        [[Token.mk TokenType.int_ "int", Token.mk TokenType.ident "x",
            Token.mk TokenType.assign "=", Token.mk TokenType.INT "5",
            Token.mk TokenType.semicolon ";"],
          [Token.mk TokenType.return_ "exit", Token.mk TokenType.open_paren "(",
            Token.mk TokenType.INT "42", Token.mk TokenType.close_paren ")",
            Token.mk TokenType.semicolon ";"]]
        [int_node (Token.mk TokenType.ident "x") (Token.mk TokenType.INT "5"),
          exit_node (Token.mk TokenType.INT "42")] ∧
      parse_program (Parser.new
          [Token.mk TokenType.int_ "int", Token.mk TokenType.ident "x",
            Token.mk TokenType.assign "=", Token.mk TokenType.INT "5",
            Token.mk TokenType.semicolon ";",
            Token.mk TokenType.return_ "exit", Token.mk TokenType.open_paren "(",
            Token.mk TokenType.INT "42", Token.mk TokenType.close_paren ")",
            Token.mk TokenType.semicolon ";"]) =
        Outcome.present
          (NodeProg.mk [int_node (Token.mk TokenType.ident "x") (Token.mk TokenType.INT "5"),
            exit_node (Token.mk TokenType.INT "42")])
          (Parser.mk
            [Token.mk TokenType.int_ "int", Token.mk TokenType.ident "x",
              Token.mk TokenType.assign "=", Token.mk TokenType.INT "5",
              Token.mk TokenType.semicolon ";",
              Token.mk TokenType.return_ "exit", Token.mk TokenType.open_paren "(",
              Token.mk TokenType.INT "42", Token.mk TokenType.close_paren ")",
              Token.mk TokenType.semicolon ";"] 10 []) := by
  have h : List.Forall₂ (fun s n => grammar_stmt s = some n)
      [[Token.mk TokenType.int_ "int", Token.mk TokenType.ident "x",
          Token.mk TokenType.assign "=", Token.mk TokenType.INT "5",
          Token.mk TokenType.semicolon ";"],
        [Token.mk TokenType.return_ "exit", Token.mk TokenType.open_paren "(",
          Token.mk TokenType.INT "42", Token.mk TokenType.close_paren ")",
          Token.mk TokenType.semicolon ";"]]
      [int_node (Token.mk TokenType.ident "x") (Token.mk TokenType.INT "5"),
        exit_node (Token.mk TokenType.INT "42")] :=
    List.Forall₂.cons (by decide) (List.Forall₂.cons (by decide) List.Forall₂.nil)
  exact ⟨h, (C3_parse_program_complete _ _ h).1⟩

/-- C4 (the code departs from the claim): for `exit(42)` the generator writes
the literal's load, then `lda %r`, `out 0`, `hlt`; the second instruction loads
the return-value cell into the accumulator and is not the store `sta %r` of the
claim.  It is so for every exit statement: after the expression
`generate_exit` always writes the same fixed text. -/
theorem C4_exit_block_loads_return_cell :
    generate_exit "" (NodeStmtExit.mk (NodeExpr.mk (NodeTerm.mk
        (TermValue.node_int_lit (NodeIntLit.mk (Token.mk TokenType.INT "42")))))) =
      "    ldi A 42\n\n    lda %r\n    out 0\n    hlt\n" ∧
    instructions "    ldi A 42\n\n    lda %r\n    out 0\n    hlt\n" =
      ["ldi A 42", "lda %r", "out 0", "hlt"] ∧
    ∀ (asm_out : String) (n : NodeStmtExit),
      generate_exit asm_out n =
        generate_expr asm_out n.expr ++ "\n    lda %r\n    out 0\n    hlt\n" := by
  refine ⟨by decide, by decide, ?_⟩
  intro asm_out n
  simp [generate_exit, String.append_assoc]

/-- C5 (the code departs from the claim): in the assembly generated for
`int x = 5; exit(42);` the last instruction that loads the accumulator before
`out` is `lda %r`, the load of the return-value cell, not `ldi A 42`. -/
theorem C5_load_before_out_is_return_cell :
    generate (NodeProg.mk [int_node (Token.mk TokenType.ident "x") (Token.mk TokenType.INT "5"),
        exit_node (Token.mk TokenType.INT "42")]) =
      GenOutcome.finished
        ".text\n\nstart:\n    ldi A 5\n    sta %x\n    ldi A, 0\n    ldi A 42\n\n    lda %r\n    out 0\n    hlt\n\n.data\n\nr = 0\n" ∧
    load_before_out (instructions
        ".text\n\nstart:\n    ldi A 5\n    sta %x\n    ldi A, 0\n    ldi A 42\n\n    lda %r\n    out 0\n    hlt\n\n.data\n\nr = 0\n") =
      some "lda %r" := by
  refine ⟨by decide, by decide⟩

/-- C6 (amended): for every program whose statements each hold an exit node or
a declaration node, the text written by `generate` is the header
`.text`, blank line, `start:`, then the blocks of the statements in the order
of the statement list, then the fixed data section; the body of a
concatenation is the concatenation of the bodies. -/
theorem C6_generate_layout (p : NodeProg) (h : ∀ s ∈ p.stmts, emittable s = true) :
    generate p =
        GenOutcome.finished (".text\n\nstart:\n" ++ program_body p.stmts ++ "\n.data\n\nr = 0\n") ∧
      ∀ l1 l2 : List NodeStmt, program_body (l1 ++ l2) = program_body l1 ++ program_body l2 := by
  refine ⟨?_, program_body_append⟩
  unfold generate
  rw [generate_loop_emittable p.stmts h]
  simp [String.append_assoc]

/-- C6 (amended) at the program of `int x = 5; exit(42);`. -/
theorem C6_generate_layout_witness :
    (∀ s ∈ (NodeProg.mk [int_node (Token.mk TokenType.ident "x") (Token.mk TokenType.INT "5"),
        exit_node (Token.mk TokenType.INT "42")]).stmts, emittable s = true) ∧
      generate (NodeProg.mk [int_node (Token.mk TokenType.ident "x") (Token.mk TokenType.INT "5"),
          exit_node (Token.mk TokenType.INT "42")]) =
        GenOutcome.finished (".text\n\nstart:\n" ++
          program_body [int_node (Token.mk TokenType.ident "x") (Token.mk TokenType.INT "5"),
            exit_node (Token.mk TokenType.INT "42")] ++ "\n.data\n\nr = 0\n") :=
  ⟨by decide, (C6_generate_layout _ (by decide)).1⟩

/-- C6 as stated fails: a program whose only statement holds the bare
`NodeIdent` alternative makes `generate` end the process after the header, so
the text written is not header, body and data section. -/
theorem C6_bare_ident_statement_aborts :
    ¬ ∃ body : String,
      generate (NodeProg.mk [NodeStmt.mk (StmtValue.node_ident
          (NodeIdent.mk (Token.mk TokenType.ident "x") Token.zero)) StmtType.Ident]) =
        GenOutcome.finished (".text\n\nstart:\n" ++ body ++ "\n.data\n\nr = 0\n") := by
  rintro ⟨body, hb⟩
  have : generate (NodeProg.mk [NodeStmt.mk (StmtValue.node_ident
          (NodeIdent.mk (Token.mk TokenType.ident "x") Token.zero)) StmtType.Ident]) =
      GenOutcome.exit_failure ".text\n\nstart:\n" := rfl
  rw [this] at hb
  exact absurd hb (by simp)

/-- C7: for a name of letters other than `exit` and `int` and a non-empty digit
string `v`, the source `int <name> = <v>;` has the five tokens `int`, the
identifier, `=`, the integer literal and `;`; it parses to a program with
exactly one declaration; the block generated for the declaration is the three
instructions `ldi A <v>`, `sta %<name>`, `ldi A, 0` in that order, the last one
resetting the accumulator; and the whole output is that block between the
header and the data section. -/
theorem C7_declaration_scenario (name v : String)
    (hname : name.data ≠ [] ∧ ∀ c ∈ name.data, c.isAlpha = true)
    (hkw : name ≠ "exit" ∧ name ≠ "int")
    (hv : v.data ≠ [] ∧ ∀ c ∈ v.data, c.isDigit = true) :
    tokenize ("int " ++ name ++ " = " ++ v ++ ";").data =
        [Token.mk TokenType.int_ "int", Token.mk TokenType.ident name,
          Token.mk TokenType.assign "=", Token.mk TokenType.INT v,
          Token.mk TokenType.semicolon ";"] ∧
      parse_program (Parser.new (tokenize ("int " ++ name ++ " = " ++ v ++ ";").data)) =
        Outcome.present
          (NodeProg.mk [int_node (Token.mk TokenType.ident name) (Token.mk TokenType.INT v)])
          (Parser.mk (tokenize ("int " ++ name ++ " = " ++ v ++ ";").data) 5 []) ∧
      generate_stmt_int ""
          (NodeStmtInt.mk (NodeIdent.mk (Token.mk TokenType.ident name) Token.zero)
            (NodeExpr.mk (NodeTerm.mk (TermValue.node_int_lit
              (NodeIntLit.mk (Token.mk TokenType.INT v)))))) =
        "    ldi A " ++ v ++ "\n    sta %" ++ name ++ "\n    ldi A, 0\n" ∧
      instructions ("    ldi A " ++ v ++ "\n    sta %" ++ name ++ "\n    ldi A, 0\n") =
        ["ldi A " ++ v, "sta %" ++ name, "ldi A, 0"] ∧
      generate
          (NodeProg.mk [int_node (Token.mk TokenType.ident name) (Token.mk TokenType.INT v)]) =
        GenOutcome.finished (".text\n\nstart:\n" ++
          ("    ldi A " ++ v ++ "\n    sta %" ++ name ++ "\n    ldi A, 0\n") ++
          "\n.data\n\nr = 0\n") := by
  have hblock : generate_stmt_int ""
      (NodeStmtInt.mk (NodeIdent.mk (Token.mk TokenType.ident name) Token.zero)
        (NodeExpr.mk (NodeTerm.mk (TermValue.node_int_lit
          (NodeIntLit.mk (Token.mk TokenType.INT v)))))) =
      "    ldi A " ++ v ++ "\n    sta %" ++ name ++ "\n    ldi A, 0\n" := by
    apply String.ext
    simp [generate_stmt_int, generate_expr, generate_term, generate_ident, generate_int_lit,
      String.data_append]
  refine ⟨tokenize_declaration name v hname hkw hv, ?_, hblock,
    instructions_declaration name v hname.2 hv.2, ?_⟩
  · rw [tokenize_declaration name v hname hkw hv]
    exact parse_program_single _ _ (by simp [grammar_stmt, exit_form, int_form])
  · have h := generate_loop_emittable
      [int_node (Token.mk TokenType.ident name) (Token.mk TokenType.INT v)]
      (by simp [emittable, int_node]) ("" ++ ".text\n\nstart:\n")
    unfold generate
    simp only [h]
    simp only [program_body, stmt_block, int_node, hblock]
    apply congrArg GenOutcome.finished
    apply String.ext
    simp [String.data_append]

/-- C7 at `int x = 5;`. -/
theorem C7_declaration_scenario_witness :
    (("x" : String).data ≠ [] ∧ ∀ c ∈ ("x" : String).data, c.isAlpha = true) ∧
      (("x" : String) ≠ "exit" ∧ ("x" : String) ≠ "int") ∧
      (("5" : String).data ≠ [] ∧ ∀ c ∈ ("5" : String).data, c.isDigit = true) ∧
      tokenize ("int " ++ "x" ++ " = " ++ "5" ++ ";").data =
        [Token.mk TokenType.int_ "int", Token.mk TokenType.ident "x",
          Token.mk TokenType.assign "=", Token.mk TokenType.INT "5",
          Token.mk TokenType.semicolon ";"] ∧
      generate_stmt_int ""
          (NodeStmtInt.mk (NodeIdent.mk (Token.mk TokenType.ident "x") Token.zero)
            (NodeExpr.mk (NodeTerm.mk (TermValue.node_int_lit
              (NodeIntLit.mk (Token.mk TokenType.INT "5")))))) =
        "    ldi A " ++ "5" ++ "\n    sta %" ++ "x" ++ "\n    ldi A, 0\n" :=
  ⟨by decide, by decide, by decide,
    (C7_declaration_scenario "x" "5" (by decide) (by decide) (by decide)).1,
    (C7_declaration_scenario "x" "5" (by decide) (by decide) (by decide)).2.2.1⟩

/-- C8: for a non-empty digit string `v`, the source `exit(<v>);` has the five
tokens `exit`, `(`, the integer literal, `)` and `;`; it parses to a program
with exactly one exit statement; and the block generated for it consists of the
instructions `ldi A <v>`, `lda %r`, `out 0`, `hlt`, in that order and with no
other instruction between them. -/
theorem C8_exit_scenario (v : String)
    (hv : v.data ≠ [] ∧ ∀ c ∈ v.data, c.isDigit = true) :
    tokenize ("exit(" ++ v ++ ");").data =
        [Token.mk TokenType.return_ "exit", Token.mk TokenType.open_paren "(",
          Token.mk TokenType.INT v, Token.mk TokenType.close_paren ")",
          Token.mk TokenType.semicolon ";"] ∧
      parse_program (Parser.new (tokenize ("exit(" ++ v ++ ");").data)) =
        Outcome.present (NodeProg.mk [exit_node (Token.mk TokenType.INT v)])
          (Parser.mk (tokenize ("exit(" ++ v ++ ");").data) 5 []) ∧
      generate_exit ""
          (NodeStmtExit.mk (NodeExpr.mk (NodeTerm.mk (TermValue.node_int_lit
            (NodeIntLit.mk (Token.mk TokenType.INT v)))))) =
        "    ldi A " ++ v ++ "\n\n    lda %r\n    out 0\n    hlt\n" ∧
      instructions ("    ldi A " ++ v ++ "\n\n    lda %r\n    out 0\n    hlt\n") =
        ["ldi A " ++ v, "lda %r", "out 0", "hlt"] := by
  refine ⟨tokenize_exit v hv, ?_, ?_, instructions_exit v hv.2⟩
  · rw [tokenize_exit v hv]
    exact parse_program_single _ _ (by simp [grammar_stmt, exit_form])
  · apply String.ext
    simp [generate_exit, generate_expr, generate_term, generate_int_lit, String.data_append]

/-- C8 at `exit(42);`. -/
theorem C8_exit_scenario_witness :
    (("42" : String).data ≠ [] ∧ ∀ c ∈ ("42" : String).data, c.isDigit = true) ∧
      tokenize ("exit(" ++ "42" ++ ");").data =
        [Token.mk TokenType.return_ "exit", Token.mk TokenType.open_paren "(",
          Token.mk TokenType.INT "42", Token.mk TokenType.close_paren ")",
          Token.mk TokenType.semicolon ";"] ∧
      instructions ("    ldi A " ++ "42" ++ "\n\n    lda %r\n    out 0\n    hlt\n") =
        ["ldi A " ++ "42", "lda %r", "out 0", "hlt"] :=
  ⟨by decide, (C8_exit_scenario "42" (by decide)).1, (C8_exit_scenario "42" (by decide)).2.2.2⟩

/-- C9: when the tokens of a source text parse to a program, `generate`
finishes on that program, and the text it writes contains `start:` at exactly
one position and `.data` at exactly one position. -/
theorem C9_single_header_and_data_section (src : List Char) (prog : NodeProg) (q : Parser)
    (h : parse_program (Parser.new (tokenize src)) = Outcome.present prog q) :
    ∃ text : String, generate prog = GenOutcome.finished text ∧
      count_occurrences "start:".data text.data = 1 ∧
      count_occurrences ".data".data text.data = 1 := by
  have hnodes := parse_program_nodes (tokenize src) q prog h
  have hplain := program_body_plain (tokenize src) prog.stmts (tokenize_lexeme_chars src) hnodes
  have hgen : generate prog = GenOutcome.finished
      (".text\n\nstart:\n" ++ program_body prog.stmts ++ "\n.data\n\nr = 0\n") := by
    unfold generate
    rw [generate_loop_emittable prog.stmts
      (fun s hs => node_from_emittable _ s (hnodes s hs))]
    simp [String.append_assoc]
  refine ⟨_, hgen, ?_, ?_⟩
  · have e : (".text\n\nstart:\n" ++ program_body prog.stmts ++ "\n.data\n\nr = 0\n").data =
        ".text\n\nstart:\n".data ++
          ((program_body prog.stmts).data ++ "\n.data\n\nr = 0\n".data) := by
      simp [String.data_append]
    rw [e]
    apply count_start_label
    intro hmem
    rcases List.mem_append.mp hmem with hm | hm
    · exact (hplain _ hm).1 rfl
    · exact absurd hm (by decide)
  · have e : (".text\n\nstart:\n" ++ program_body prog.stmts ++ "\n.data\n\nr = 0\n").data =
        ".text\n\nstart:\n".data ++
          ((program_body prog.stmts).data ++ "\n.data\n\nr = 0\n".data) := by
      simp [String.data_append]
    rw [e]
    apply count_data_section
    intro hmem
    exact (hplain _ hmem).2 rfl

/-- C9 at `int start = 5; exit(42);`, whose identifier is the word `start`. -/
theorem C9_single_header_and_data_section_witness :
    parse_program (Parser.new (tokenize "int start = 5; exit(42);".data)) =
        Outcome.present
          (NodeProg.mk [int_node (Token.mk TokenType.ident "start") (Token.mk TokenType.INT "5"),
            exit_node (Token.mk TokenType.INT "42")])
          (Parser.mk (tokenize "int start = 5; exit(42);".data) 10 []) ∧
      ∃ text : String,
        generate (NodeProg.mk
            [int_node (Token.mk TokenType.ident "start") (Token.mk TokenType.INT "5"),
              exit_node (Token.mk TokenType.INT "42")]) = GenOutcome.finished text ∧
          count_occurrences "start:".data text.data = 1 ∧
          count_occurrences ".data".data text.data = 1 := by
  have ht : tokenize "int start = 5; exit(42);".data =
      [Token.mk TokenType.int_ "int", Token.mk TokenType.ident "start",
        Token.mk TokenType.assign "=", Token.mk TokenType.INT "5",
        Token.mk TokenType.semicolon ";",
        Token.mk TokenType.return_ "exit", Token.mk TokenType.open_paren "(",
        Token.mk TokenType.INT "42", Token.mk TokenType.close_paren ")",
        Token.mk TokenType.semicolon ";"] := by
    simp [tokenize, tokenize_loop, classify_word]
  have h : parse_program (Parser.new (tokenize "int start = 5; exit(42);".data)) =
      Outcome.present
        (NodeProg.mk [int_node (Token.mk TokenType.ident "start") (Token.mk TokenType.INT "5"),
          exit_node (Token.mk TokenType.INT "42")])
        (Parser.mk (tokenize "int start = 5; exit(42);".data) 10 []) := by
    rw [ht, parse_program, parse_program_loop_present _ _ _ _ (by decide) (by rfl),
      parse_program_loop_present _ _ _ _ (by decide) (by rfl),
      parse_program_loop_done _ _ (by decide)]
    rfl
  exact ⟨h, C9_single_header_and_data_section _ _ _ h⟩

/-- C10: for every source over the supported character classes, tokenizing the
lexemes of its tokens joined with single spaces gives the same tokens again, so
in particular the same token kinds in the same order.  (The proof does not use
the restriction on the characters: see `tokenize_relex`.) -/
theorem C10_retokenize_stable (s : List Char) (_hs : ∀ c ∈ s, supported_char c = true) :
    tokenize (join_lexemes (tokenize s)) = tokenize s ∧
      (tokenize (join_lexemes (tokenize s))).map Token.type = (tokenize s).map Token.type := by
  have h := tokenize_relex s
  exact ⟨h, by rw [h]⟩

/-- C10 at `int x=5 ;exit(42);`. -/
theorem C10_retokenize_stable_witness :
    (∀ c ∈ "int x=5 ;exit(42);".data, supported_char c = true) ∧
      tokenize (join_lexemes (tokenize "int x=5 ;exit(42);".data)) =
        tokenize "int x=5 ;exit(42);".data :=
  ⟨by decide, (C10_retokenize_stable _ (by decide)).1⟩

/-- C11: a non-empty run of digits between a text that does not end with a
digit and a text that does not start with a digit is one integer literal token
whose lexeme is the run, and the texts before and after are tokenized as they
are on their own; likewise a non-empty run of letters between a text that does
not end and a text that does not start with a letter is one word token whose
lexeme is the run.  The text after the run may be empty, and its first
character is tokenized with it. -/
theorem C11_greedy_runs (a run b : List Char) (hne : run ≠ []) :
    ((∀ c ∈ run, c.isDigit = true) → (∀ x ∈ a.getLast?, x.isDigit = false) →
        (∀ y ∈ b.head?, y.isDigit = false) →
        tokenize (a ++ run ++ b) =
          tokenize a ++ [Token.mk TokenType.INT (String.mk run)] ++ tokenize b) ∧
      ((∀ c ∈ run, c.isAlpha = true) → (∀ x ∈ a.getLast?, x.isAlpha = false) →
        (∀ y ∈ b.head?, y.isAlpha = false) →
        tokenize (a ++ run ++ b) =
            tokenize a ++ [classify_word (String.mk run)] ++ tokenize b ∧
          (classify_word (String.mk run)).value = String.mk run) := by
  constructor
  · intro hrun ha hb
    rw [List.append_assoc, tokenize_append a (run ++ b), tokenize_digit_run run b hne hrun hb]
    · simp
    · intro x hx y hy
      have hy2 : y.isDigit = true := hrun y (head?_append_mem run b hne y hy)
      refine ⟨fun h => ?_, fun h => ?_⟩
      · rw [ha x hx] at h; exact absurd h.1 (by simp)
      · rw [not_alpha_of_digit y hy2] at h; exact absurd h.2 (by simp)
  · intro hrun ha hb
    refine ⟨?_, classify_word_value _⟩
    rw [List.append_assoc, tokenize_append a (run ++ b), tokenize_alpha_run run b hne hrun hb]
    · simp
    · intro x hx y hy
      have hy2 : y.isAlpha = true := hrun y (head?_append_mem run b hne y hy)
      refine ⟨fun h => ?_, fun h => ?_⟩
      · rw [not_digit_of_alpha y hy2] at h; exact absurd h.2 (by simp)
      · rw [ha x hx] at h; exact absurd h.1 (by simp)

/-- C11 at `x=42;` (the digits `42` after `x=`, before `;`) and at `5 exits`
(the letters `exits` after `5 `, at the end of input). -/
theorem C11_greedy_runs_witness :
    tokenize ("x=".data ++ "42".data ++ ";".data) =
        tokenize "x=".data ++ [Token.mk TokenType.INT "42"] ++ tokenize ";".data ∧
      tokenize ("5 ".data ++ "exits".data ++ []) =
        tokenize "5 ".data ++ [Token.mk TokenType.ident "exits"] ++ tokenize [] :=
  ⟨(C11_greedy_runs "x=".data "42".data ";".data (by decide)).1
      (by decide) (by decide) (by decide),
    ((C11_greedy_runs "5 ".data "exits".data [] (by decide)).2
      (by decide) (by decide) (by decide)).1⟩

/-- C12: the lexemes of the tokens of a source, put together in order, are the
source without the characters that are not digits, letters or one of `(`, `)`,
`;`, `=`. -/
theorem C12_lexemes_preserve_source (s : List Char) :
    ((tokenize s).map (fun t => t.value.data)).flatten = s.filter lexeme_char :=
  tokenize_lexemes_aux s.length s (Nat.le_refl _)

/-- C13: after any number of complete statements of the grammar, a statement
with an identifier token where the expression stands, `exit ( <identifier>` or
`int <name> = <identifier>`, whatever follows, makes `parse_program` return
nothing: `parse_term` fails on the identifier, and no program with the earlier
statements is returned. -/
theorem C13_identifier_expression_rejected (ss : List (List Token)) (nodes : List NodeStmt)
    (h : List.Forall₂ (fun s n => grammar_stmt s = some n) ss nodes)
    (t0 t1 t2 t3 : Token) (rest : List Token) :
    (t0.type = TokenType.return_ → t1.type = TokenType.open_paren →
        t2.type = TokenType.ident →
        parse_program (Parser.new (ss.flatten ++ t0 :: t1 :: t2 :: rest)) =
          Outcome.nullopt (Parser.mk (ss.flatten ++ t0 :: t1 :: t2 :: rest)
            (ss.flatten.length + 2) ["parse_term_fail", "parse_expr_fail", "parse_prog_fail"])) ∧
      (t0.type = TokenType.int_ → t1.type = TokenType.ident → t2.type = TokenType.assign →
        t3.type = TokenType.ident →
        parse_program (Parser.new (ss.flatten ++ t0 :: t1 :: t2 :: t3 :: rest)) =
          Outcome.nullopt (Parser.mk (ss.flatten ++ t0 :: t1 :: t2 :: t3 :: rest)
            (ss.flatten.length + 3)
            ["parse_term_fail", "parse_expr_fail", "parse_prog_fail"])) := by
  constructor
  · intro ty0 ty1 ty2
    have g : ∀ k, (ss.flatten ++ t0 :: t1 :: t2 :: rest)[ss.flatten.length + k]? =
        (t0 :: t1 :: t2 :: rest)[k]? := getElem?_append_offset _ _
    have hs := parse_stmt_exit_not_int
      (Parser.mk (ss.flatten ++ t0 :: t1 :: t2 :: rest) ss.flatten.length []) t0 t1 t2
      (by simpa using g 0) (by simpa using g 1) (by simpa using g 2) ty0 ty1
      (by rw [ty2]; decide)
    rw [parse_program_fails_after ss nodes h _ _ (by simp) hs]
    rfl
  · intro ty0 ty1 ty2 ty3
    have g : ∀ k, (ss.flatten ++ t0 :: t1 :: t2 :: t3 :: rest)[ss.flatten.length + k]? =
        (t0 :: t1 :: t2 :: t3 :: rest)[k]? := getElem?_append_offset _ _
    have hs := parse_stmt_int_not_int
      (Parser.mk (ss.flatten ++ t0 :: t1 :: t2 :: t3 :: rest) ss.flatten.length []) t0 t1 t2 t3
      (by simpa using g 0) (by simpa using g 1) (by simpa using g 2) (by simpa using g 3)
      ty0 ty1 ty2 (by rw [ty3]; decide)
    rw [parse_program_fails_after ss nodes h _ _ (by simp) hs]
    rfl

/-- C13 at the tokens of `int x = 5; exit(x);`. -/
theorem C13_identifier_expression_rejected_witness :
    List.Forall₂ (fun s n => grammar_stmt s = some n)
        [[Token.mk TokenType.int_ "int", Token.mk TokenType.ident "x",
          Token.mk TokenType.assign "=", Token.mk TokenType.INT "5",
          Token.mk TokenType.semicolon ";"]]
        [int_node (Token.mk TokenType.ident "x") (Token.mk TokenType.INT "5")] ∧
      parse_program (Parser.new
          ([[Token.mk TokenType.int_ "int", Token.mk TokenType.ident "x",
              Token.mk TokenType.assign "=", Token.mk TokenType.INT "5",
              Token.mk TokenType.semicolon ";"]].flatten ++
            Token.mk TokenType.return_ "exit" :: Token.mk TokenType.open_paren "(" ::
              Token.mk TokenType.ident "x" ::
              [Token.mk TokenType.close_paren ")", Token.mk TokenType.semicolon ";"])) =
        Outcome.nullopt (Parser.mk
          ([[Token.mk TokenType.int_ "int", Token.mk TokenType.ident "x",
              Token.mk TokenType.assign "=", Token.mk TokenType.INT "5",
              Token.mk TokenType.semicolon ";"]].flatten ++
            Token.mk TokenType.return_ "exit" :: Token.mk TokenType.open_paren "(" ::
              Token.mk TokenType.ident "x" ::
              [Token.mk TokenType.close_paren ")", Token.mk TokenType.semicolon ";"])
          ([[Token.mk TokenType.int_ "int", Token.mk TokenType.ident "x",
              Token.mk TokenType.assign "=", Token.mk TokenType.INT "5",
              Token.mk TokenType.semicolon ";"]].flatten.length + 2)
          ["parse_term_fail", "parse_expr_fail", "parse_prog_fail"]) := by
  have h : List.Forall₂ (fun s n => grammar_stmt s = some n)
      [[Token.mk TokenType.int_ "int", Token.mk TokenType.ident "x",
        Token.mk TokenType.assign "=", Token.mk TokenType.INT "5",
        Token.mk TokenType.semicolon ";"]]
      [int_node (Token.mk TokenType.ident "x") (Token.mk TokenType.INT "5")] :=
    List.Forall₂.cons (by decide) List.Forall₂.nil
  exact ⟨h, (C13_identifier_expression_rejected _ _ h (Token.mk TokenType.return_ "exit")
    (Token.mk TokenType.open_paren "(") (Token.mk TokenType.ident "x")
    (Token.mk TokenType.ident "x")
    [Token.mk TokenType.close_paren ")", Token.mk TokenType.semicolon ";"]).1 rfl rfl rfl⟩

/-- C14: after any number of complete statements of the grammar, `int`, an
identifier and a third token that is not `=`, whatever follows, make
`parse_program` return nothing; the diagnostic is the one of the check of the
assignment sign in `parse_stmt`, and the cursor has moved by the two tokens
matched and is on the third token. -/
theorem C14_missing_assignment_sign (ss : List (List Token)) (nodes : List NodeStmt)
    (h : List.Forall₂ (fun s n => grammar_stmt s = some n) ss nodes)
    (t0 t1 t2 : Token) (rest : List Token)
    (ty0 : t0.type = TokenType.int_) (ty1 : t1.type = TokenType.ident)
    (ty2 : t2.type ≠ TokenType.assign) :
    parse_stmt (Parser.mk (ss.flatten ++ t0 :: t1 :: t2 :: rest) ss.flatten.length []) =
        Outcome.nullopt (Parser.mk (ss.flatten ++ t0 :: t1 :: t2 :: rest)
          (ss.flatten.length + 2) ["expecting assignment sign '=' "]) ∧
      parse_program (Parser.new (ss.flatten ++ t0 :: t1 :: t2 :: rest)) =
        Outcome.nullopt (Parser.mk (ss.flatten ++ t0 :: t1 :: t2 :: rest)
          (ss.flatten.length + 2) ["expecting assignment sign '=' ", "parse_prog_fail"]) ∧
      (ss.flatten ++ t0 :: t1 :: t2 :: rest)[ss.flatten.length + 2]? = some t2 := by
  have g : ∀ k, (ss.flatten ++ t0 :: t1 :: t2 :: rest)[ss.flatten.length + k]? =
      (t0 :: t1 :: t2 :: rest)[k]? := getElem?_append_offset _ _
  have hs := parse_stmt_int_no_assign
    (Parser.mk (ss.flatten ++ t0 :: t1 :: t2 :: rest) ss.flatten.length []) t0 t1 t2
    (by simpa using g 0) (by simpa using g 1) (by simpa using g 2) ty0 ty1 ty2
  refine ⟨?_, ?_, by simpa using g 2⟩
  · rw [hs]; rfl
  · rw [parse_program_fails_after ss nodes h _ _ (by simp) hs]
    rfl

/-- C14 at the tokens of `int x 5;`. -/
theorem C14_missing_assignment_sign_witness :
    List.Forall₂ (fun s n => grammar_stmt s = some n) [] [] ∧
      (Token.mk TokenType.INT "5").type ≠ TokenType.assign ∧
      parse_program (Parser.new ([] ++ Token.mk TokenType.int_ "int" ::
          Token.mk TokenType.ident "x" :: Token.mk TokenType.INT "5" ::
          [Token.mk TokenType.semicolon ";"])) =
        Outcome.nullopt (Parser.mk ([] ++ Token.mk TokenType.int_ "int" ::
          Token.mk TokenType.ident "x" :: Token.mk TokenType.INT "5" ::
          [Token.mk TokenType.semicolon ";"]) (0 + 2)
          ["expecting assignment sign '=' ", "parse_prog_fail"]) :=
  ⟨List.Forall₂.nil, by decide,
    (C14_missing_assignment_sign [] [] List.Forall₂.nil (Token.mk TokenType.int_ "int")
      (Token.mk TokenType.ident "x") (Token.mk TokenType.INT "5")
      [Token.mk TokenType.semicolon ";"] rfl rfl (by decide)).2.1⟩

/-- C15: for every source text, `main` writes assembly text exactly when
`parse_program` returns a program, and then it is the complete text of
`generate`; when `parse_program` returns nothing, `main` ends at the unchecked
`.value()` before a `Generator` is constructed, so nothing is written. -/
theorem C15_no_output_on_failed_parse (src : List Char) :
    (((main (some src)).assembly).isSome = true ↔
        ∃ (prog : NodeProg) (q : Parser),
          parse_program (Parser.new (tokenize src)) = Outcome.present prog q) ∧
      (∀ (prog : NodeProg) (q : Parser),
        parse_program (Parser.new (tokenize src)) = Outcome.present prog q →
        (main (some src)).assembly =
          some (".text\n\nstart:\n" ++ program_body prog.stmts ++ "\n.data\n\nr = 0\n")) ∧
      (∀ q : Parser, parse_program (Parser.new (tokenize src)) = Outcome.nullopt q →
        main (some src) = MainOutcome.bad_optional_access ∧
          (main (some src)).assembly = none) := by
  have hpresent : ∀ (prog : NodeProg) (q : Parser),
      parse_program (Parser.new (tokenize src)) = Outcome.present prog q →
      (main (some src)).assembly =
        some (".text\n\nstart:\n" ++ program_body prog.stmts ++ "\n.data\n\nr = 0\n") := by
    intro prog q h
    have hg := generate_parsed (tokenize src) prog q h
    simp [main, h, hg, MainOutcome.assembly]
  refine ⟨⟨?_, ?_⟩, hpresent, ?_⟩
  · intro hsome
    cases hp : parse_program (Parser.new (tokenize src)) with
    | present prog q => exact ⟨prog, q, rfl⟩
    | nullopt q => simp [main, hp, MainOutcome.assembly] at hsome
    | exit_failure q => simp [main, hp, MainOutcome.assembly] at hsome
  · rintro ⟨prog, q, h⟩
    rw [hpresent prog q h]
    rfl
  · intro q h
    simp [main, h, MainOutcome.assembly]

/-- C16: `parse_program` terminates on every token sequence.  A call of
`parse_stmt` that returns a statement moves the cursor by exactly five, so the
number of tokens left gets smaller; a call that does not return a statement
ends the loop; every run is a number `k` of rounds that return a statement
followed by the end of the loop, and `k` is at most the number of tokens
divided by five, rounded up. -/
theorem C16_parse_program_terminates (toks : List Token) :
    (∀ (p q : Parser) (stmt : NodeStmt), parse_stmt p = Outcome.present stmt q →
        q.tokens = p.tokens ∧ q.index = p.index + 5 ∧
          (p.index < p.tokens.length →
            q.tokens.length - q.index < p.tokens.length - p.index)) ∧
      (∀ (p q : Parser) (prog : NodeProg), p.index < p.tokens.length →
        (parse_stmt p = Outcome.nullopt q →
          parse_program_loop p prog = Outcome.nullopt (q.log "parse_prog_fail")) ∧
        (parse_stmt p = Outcome.exit_failure q →
          parse_program_loop p prog = Outcome.exit_failure q)) ∧
      (∃ (k : Nat) (r : Parser), Rounds (Parser.new toks) k r ∧
        ((¬ r.index < r.tokens.length ∧ ∃ res : NodeProg, res.stmts.length = k ∧
            parse_program (Parser.new toks) = Outcome.present res r) ∨
          (r.index < r.tokens.length ∧ ∃ q : Parser, parse_stmt r = Outcome.nullopt q ∧
            parse_program (Parser.new toks) = Outcome.nullopt (q.log "parse_prog_fail")) ∨
          (r.index < r.tokens.length ∧ ∃ q : Parser, parse_stmt r = Outcome.exit_failure q ∧
            parse_program (Parser.new toks) = Outcome.exit_failure q))) ∧
      (∀ (k : Nat) (r : Parser), Rounds (Parser.new toks) k r →
        r.index = 5 * k ∧ k ≤ (toks.length + 4) / 5) := by
  refine ⟨?_, ?_, ?_, ?_⟩
  · intro p q stmt hs
    obtain ⟨hq, _⟩ := parse_stmt_present p q stmt hs
    have htok : q.tokens = p.tokens := by rw [hq]; rfl
    have hidx : q.index = p.index + 5 := by rw [hq]; rfl
    refine ⟨htok, hidx, ?_⟩
    intro hlt
    rw [htok, hidx]
    omega
  · intro p q prog hlt
    exact ⟨parse_program_loop_nullopt p q prog hlt, parse_program_loop_exit_failure p q prog hlt⟩
  · have := parse_program_loop_run_aux _ (Parser.new toks) (NodeProg.mk []) (Nat.le_refl _)
    simpa [parse_program] using this
  · intro k r hr
    obtain ⟨_, h2, h3⟩ := Rounds_index _ r k hr
    have hi : (Parser.new toks).index = 0 := rfl
    have ht : (Parser.new toks).tokens = toks := rfl
    rw [hi, ht] at h3
    rw [hi] at h2
    refine ⟨by omega, ?_⟩
    cases k with
    | zero => exact Nat.zero_le _
    | succ k =>
      have := h3 (Nat.succ_pos k)
      simp at this
      omega

/-- C17: the lexeme of every token of every source agrees with the kind of the
token: an integer literal has a non-empty lexeme of digits, the keyword tokens
have the lexemes `exit` and `int`, an identifier has a non-empty lexeme of
letters other than `exit` and `int`, and the punctuation tokens have the
lexemes `(`, `)`, `;`, `=`.  The words `exits`, `integer` and `Exit` are
identifiers. -/
theorem C17_lexeme_agrees_with_kind (s : List Char) (t : Token) (ht : t ∈ tokenize s) :
    lexeme_agrees t = true ∧
      tokenize "exits".data = [Token.mk TokenType.ident "exits"] ∧
      tokenize "integer".data = [Token.mk TokenType.ident "integer"] ∧
      tokenize "Exit".data = [Token.mk TokenType.ident "Exit"] := by
  refine ⟨?_, ?_, ?_, ?_⟩
  · apply tokenize_forall_aux (fun t => lexeme_agrees t = true) _ classify_word_agrees
      (by decide) (by decide) (by decide) (by decide) s.length s (Nat.le_refl _) t ht
    intro run hne h
    simp [lexeme_agrees, hne]
    exact h
  · simp [tokenize, tokenize_loop, classify_word]
  · simp [tokenize, tokenize_loop, classify_word]
  · simp [tokenize, tokenize_loop, classify_word]

/-- C17 at the integer literal of `exit(42);`. -/
theorem C17_lexeme_agrees_with_kind_witness :
    Token.mk TokenType.INT "42" ∈ tokenize "exit(42);".data ∧
      lexeme_agrees (Token.mk TokenType.INT "42") = true := by
  have ht : Token.mk TokenType.INT "42" ∈ tokenize "exit(42);".data := by
    simp [tokenize, tokenize_loop, classify_word]
  exact ⟨ht, (C17_lexeme_agrees_with_kind _ _ ht).1⟩

/-- C18: in a program returned by `parse_program`, the term of every
expression, of exit statements and of declarations, is an integer literal node
whose token has the kind of integer literals, not an identifier node; so
`generate_term` takes its integer literal branch on it. -/
theorem C18_no_identifier_terms (toks : List Token) (res : NodeProg) (q : Parser)
    (h : parse_program (Parser.new toks) = Outcome.present res q) :
    ∀ s ∈ res.stmts, ∀ e ∈ stmt_exprs s,
      (∃ tok : Token, tok.type = TokenType.INT ∧
        e.value.value = TermValue.node_int_lit (NodeIntLit.mk tok) ∧
        ∀ asm_out : String,
          generate_term asm_out e.value = generate_int_lit asm_out (NodeIntLit.mk tok)) ∧
      ∀ n : NodeIdent, e.value.value ≠ TermValue.node_ident n := by
  intro s hs e he
  rcases parse_program_nodes toks q res h s hs with
    ⟨lit, _, hty, rfl⟩ | ⟨name, lit, _, _, _, hty, rfl⟩
  · simp [stmt_exprs, exit_node] at he
    subst he
    exact ⟨⟨lit, hty, rfl, fun _ => rfl⟩, fun n hn => by simp at hn⟩
  · simp [stmt_exprs, int_node] at he
    subst he
    exact ⟨⟨lit, hty, rfl, fun _ => rfl⟩, fun n hn => by simp at hn⟩

/-- C18 at the program of the tokens of `int x = 5; exit(42);`. -/
theorem C18_no_identifier_terms_witness :
    parse_program (Parser.new
          [Token.mk TokenType.int_ "int", Token.mk TokenType.ident "x",
            Token.mk TokenType.assign "=", Token.mk TokenType.INT "5",
            Token.mk TokenType.semicolon ";",
            Token.mk TokenType.return_ "exit", Token.mk TokenType.open_paren "(",
            Token.mk TokenType.INT "42", Token.mk TokenType.close_paren ")",
            Token.mk TokenType.semicolon ";"]) =
        Outcome.present
          (NodeProg.mk [int_node (Token.mk TokenType.ident "x") (Token.mk TokenType.INT "5"),
            exit_node (Token.mk TokenType.INT "42")])
          (Parser.mk
            [Token.mk TokenType.int_ "int", Token.mk TokenType.ident "x",
              Token.mk TokenType.assign "=", Token.mk TokenType.INT "5",
              Token.mk TokenType.semicolon ";",
              Token.mk TokenType.return_ "exit", Token.mk TokenType.open_paren "(",
              Token.mk TokenType.INT "42", Token.mk TokenType.close_paren ")",
              Token.mk TokenType.semicolon ";"] 10 []) ∧
      ∀ s ∈ [int_node (Token.mk TokenType.ident "x") (Token.mk TokenType.INT "5"),
          exit_node (Token.mk TokenType.INT "42")],
        ∀ e ∈ stmt_exprs s,
          (∃ tok : Token, tok.type = TokenType.INT ∧
            e.value.value = TermValue.node_int_lit (NodeIntLit.mk tok) ∧
            ∀ asm_out : String,
              generate_term asm_out e.value = generate_int_lit asm_out (NodeIntLit.mk tok)) ∧
          ∀ n : NodeIdent, e.value.value ≠ TermValue.node_ident n :=
  ⟨parse_program_example, C18_no_identifier_terms _ _ _ parse_program_example⟩

/-- C19: a character that is not a digit, not a letter and not one of `(`, `)`,
`;`, `=` splits the source: the tokens of `a`, the character and `b` put
together are the tokens of `a` followed by the tokens of `b`; and so are the
tokens of `a`, the character, any number of further such characters, and `b`. -/
theorem C19_separator_splits (a b : List Char) (c : Char) (hc : lexeme_char c = false) :
    tokenize (a ++ [c] ++ b) = tokenize a ++ tokenize b ∧
      ∀ seps : List Char, (∀ d ∈ seps, lexeme_char d = false) →
        tokenize (a ++ [c] ++ seps ++ b) = tokenize a ++ tokenize b := by
  have hc2 := hc
  simp only [lexeme_char, Bool.or_eq_false_iff, decide_eq_false_iff_not] at hc2
  obtain ⟨⟨⟨⟨⟨h1, h2⟩, h3⟩, h4⟩, h5⟩, h6⟩ := hc2
  have key : ∀ rest : List Char, tokenize (a ++ (c :: rest)) = tokenize a ++ tokenize rest := by
    intro rest
    rw [tokenize_append a (c :: rest), tokenize_skip c rest h1 h2 h3 h4 h5 h6]
    intro x _ y hy
    have : y = c := by simpa using hy.symm
    subst this
    exact ⟨fun h => by rw [h1] at h; exact absurd h.2 (by simp),
      fun h => by rw [h2] at h; exact absurd h.2 (by simp)⟩
  constructor
  · have := key b
    simpa using this
  · intro seps hseps
    have := key (seps ++ b)
    rw [tokenize_skip_all seps b hseps] at this
    simpa using this

/-- C19 at `int` and `x` with a line feed between them. -/
theorem C19_separator_splits_witness :
    lexeme_char '\n' = false ∧
      tokenize ("int".data ++ ['\n'] ++ "x".data) = tokenize "int".data ++ tokenize "x".data :=
  ⟨by decide, (C19_separator_splits "int".data "x".data '\n' (by decide)).1⟩

/-- C20: in a program returned by `parse_program`, every statement node has the
tag `Exit` exactly when its variant holds an exit statement and the tag `Ident`
exactly when its variant holds a declaration, and no statement node holds the
bare `NodeIdent` alternative; so `generate` finishes on the program without
reaching its fatal branch. -/
theorem C20_statement_tag_agrees (toks : List Token) (res : NodeProg) (q : Parser)
    (h : parse_program (Parser.new toks) = Outcome.present res q) :
    (∀ s ∈ res.stmts,
        (s.stmt_type = StmtType.Exit ↔ ∃ n, s.stmt = StmtValue.node_stmt_exit n) ∧
        (s.stmt_type = StmtType.Ident ↔ ∃ n, s.stmt = StmtValue.node_stmt_int n) ∧
        ∀ n : NodeIdent, s.stmt ≠ StmtValue.node_ident n) ∧
      ∃ text : String, generate res = GenOutcome.finished text := by
  refine ⟨?_, _, generate_parsed toks res q h⟩
  intro s hs
  rcases parse_program_nodes toks q res h s hs with
    ⟨lit, _, _, rfl⟩ | ⟨name, lit, _, _, _, _, rfl⟩
  · simp [exit_node]
  · simp [int_node]

/-- C20 at the program of the tokens of `int x = 5; exit(42);`. -/
theorem C20_statement_tag_agrees_witness :
    parse_program (Parser.new
          [Token.mk TokenType.int_ "int", Token.mk TokenType.ident "x",
            Token.mk TokenType.assign "=", Token.mk TokenType.INT "5",
            Token.mk TokenType.semicolon ";",
            Token.mk TokenType.return_ "exit", Token.mk TokenType.open_paren "(",
            Token.mk TokenType.INT "42", Token.mk TokenType.close_paren ")",
            Token.mk TokenType.semicolon ";"]) =
        Outcome.present
          (NodeProg.mk [int_node (Token.mk TokenType.ident "x") (Token.mk TokenType.INT "5"),
            exit_node (Token.mk TokenType.INT "42")])
          (Parser.mk
            [Token.mk TokenType.int_ "int", Token.mk TokenType.ident "x",
              Token.mk TokenType.assign "=", Token.mk TokenType.INT "5",
              Token.mk TokenType.semicolon ";",
              Token.mk TokenType.return_ "exit", Token.mk TokenType.open_paren "(",
              Token.mk TokenType.INT "42", Token.mk TokenType.close_paren ")",
              Token.mk TokenType.semicolon ";"] 10 []) ∧
      ∃ text : String,
        generate (NodeProg.mk
          [int_node (Token.mk TokenType.ident "x") (Token.mk TokenType.INT "5"),
            exit_node (Token.mk TokenType.INT "42")]) = GenOutcome.finished text :=
  ⟨parse_program_example, (C20_statement_tag_agrees _ _ _ parse_program_example).2⟩

end MyLang
